import Mathlib

/-!
Verification of the yum metadata decoding engine (package `yum` and its
helpers).  The Go sources are shallowly embedded: byte streams become
`List Nat`, character streams become `List Char`, and the streaming
`encoding/xml` tokenizer used by `ParseCompressedXMLData` and
`ParseCompsXML` is modelled as a character-level state machine (`lex`)
that reproduces the observable behaviour of Go's `xml.Decoder.Token` for
the constructs the repository feeds it: start/end elements with quoted
attributes, self-closing tags, character data, processing instructions,
comments and directives, strict end-tag matching, and the
`unexpected EOF` conversion that `Token` performs when the input ends
while elements are still open.  External collaborators that are not part
of the repository (the gzip/xz/zstd decompressors, `xml.Unmarshal` for
the small repomd document, the YAML document splitter and mapstructure)
are passed in as function parameters, exactly at the boundaries where
the Go code calls into those libraries.
-/

namespace Yummy

/-! ## Data model (from `pkg/yum/repository.go`) -/

/-- Version from repository.go: `Version string; Release string; Epoch int32`. -/
structure Version where
  version : String
  release : String
  epoch : Int
deriving DecidableEq, Repr

/-- Checksum from repository.go: chardata value plus a `type` attribute. -/
structure Checksum where
  value : String
  type : String
deriving DecidableEq, Repr

/-- Package from repository.go: metadata of a given package. -/
structure Package where
  type : String
  name : String
  arch : String
  version : Version
  checksum : Checksum
  summary : String
deriving DecidableEq, Repr

/-- Location from repository.go: `Href string`. -/
structure Location where
  href : String
deriving DecidableEq, Repr

/-- Data from repository.go: one `<data type="...">` entry of a repomd index. -/
structure Data where
  type : String
  location : Location
deriving DecidableEq, Repr

/-- Repomd from repository.go; `repomdString` models the `RepomdString *string`
field that carries the raw source text. -/
structure Repomd where
  data : List Data
  revision : String
  repomdString : Option String
deriving DecidableEq, Repr

/-- PackageGroup from repository.go: localized name/description lists and the
`packagelist>packagereq` package list. -/
structure PackageGroup where
  id : String
  name : List String
  description : List String
  packageList : List String
deriving DecidableEq, Repr

/-- Environment from repository.go: localized name/description lists. -/
structure Environment where
  id : String
  name : List String
  description : List String
deriving DecidableEq, Repr

/-! ## XML tokens and errors -/

/-- Tokens delivered by the Go `xml.Decoder.Token` stream, as observed by the
repository's decode loops. -/
inductive Tok where
  | elemStart (name : String) (attrs : List (String × String))
  | elemClose (name : String)
  | chardata (s : String)
  | procInst
  | comment
  | directive
deriving DecidableEq, Repr

/-- Errors surfaced by the modelled tokenizer: the `unexpected EOF` syntax
error and the other strict-mode syntax errors (carrying a message). -/
inductive XmlErr where
  | unexpEOF
  | badTok (msg : String)
deriving DecidableEq, Repr

/-- Errors returned by the repository's decode functions, one constructor per
`return`-with-error site that the claims talk about. -/
inductive GoErr where
  | peekErr
  | invalidFileType
  | unzipErr (msg : String)
  | decodeTokenErr (e : XmlErr)
  | decodeElementErr (e : XmlErr)
deriving DecidableEq, Repr

/-- Space characters recognised by Go's XML scanner. -/
def isSpaceC (c : Char) : Bool :=
  c = ' ' || c = '\t' || c = '\n' || c = '\r'

/-- Characters accepted inside XML names (model of Go's `isNameByte`/`isName`
set restricted to ASCII, which covers every name the repository's inputs
use). -/
def nameChar (c : Char) : Bool :=
  c.isAlpha || c.isDigit || c = '_' || c = '.' || c = '-' || c = ':'

/-- States of the character-level tokenizer.  Each state corresponds to a
position inside Go's `rawToken` scanning loop. -/
inductive LexSt where
  | data (acc : List Char)
  | lt
  | pi (lastQ : Bool)
  | bang
  | bangDash
  | comm (dashes : Nat)
  | direc
  | closeTag (acc : List Char)
  | closeTagSp (acc : List Char)
  | openName (acc : List Char)
  | attrSp (el : String) (attrs : List (String × String))
  | attrName (el : String) (attrs : List (String × String)) (acc : List Char)
  | attrBeforeEq (el : String) (attrs : List (String × String)) (an : String)
  | attrAfterEq (el : String) (attrs : List (String × String)) (an : String)
  | attrVal (el : String) (attrs : List (String × String)) (an : String) (q : Char) (acc : List Char)
  | selfClose (el : String) (attrs : List (String × String))
deriving Repr

/-- Model of the token stream produced by `xml.NewDecoder(...)` followed by
repeated `Token()` calls: returns every token produced before the stream
ends or a syntax error occurs, together with the terminal outcome (`none`
for a clean `io.EOF`, `some e` for the error `Token` reports).  Mirrors
Go's behaviour: end of input between tokens is `io.EOF` when no element is
open and the `unexpected EOF` syntax error otherwise; end of input in the
middle of markup is always an `unexpected EOF` syntax error (`mustgetc`);
a self-closing tag yields a start token immediately followed by the
matching end token; end tags must match the innermost open element. -/
def lex (stack : List String) : LexSt → List Char → List Tok × Option XmlErr
  | .data acc, [] =>
      let term := if stack.isEmpty then none else some XmlErr.unexpEOF
      if acc.isEmpty then ([], term) else ([Tok.chardata (String.mk acc)], term)
  | .data acc, c :: cs =>
      if c = '<' then
        if acc.isEmpty then lex stack .lt cs
        else
          let r := lex stack .lt cs
          (Tok.chardata (String.mk acc) :: r.1, r.2)
      else lex stack (.data (acc ++ [c])) cs
  | .lt, c :: cs =>
      if c = '?' then lex stack (.pi false) cs
      else if c = '!' then lex stack .bang cs
      else if c = '/' then lex stack (.closeTag []) cs
      else if nameChar c then lex stack (.openName [c]) cs
      else ([], some (XmlErr.badTok "invalid start of token"))
  | .pi lastQ, c :: cs =>
      if c = '>' then
        if lastQ then
          let r := lex stack (.data []) cs
          (Tok.procInst :: r.1, r.2)
        else lex stack (.pi false) cs
      else lex stack (.pi (c = '?')) cs
  | .bang, c :: cs =>
      if c = '-' then lex stack .bangDash cs
      else if c = '>' then
        let r := lex stack (.data []) cs
        (Tok.directive :: r.1, r.2)
      else lex stack .direc cs
  | .bangDash, c :: cs =>
      if c = '-' then lex stack (.comm 0) cs
      else if c = '>' then
        let r := lex stack (.data []) cs
        (Tok.directive :: r.1, r.2)
      else lex stack .direc cs
  | .comm dashes, c :: cs =>
      if c = '-' then lex stack (.comm (min (dashes + 1) 2)) cs
      else if c = '>' then
        if 2 ≤ dashes then
          let r := lex stack (.data []) cs
          (Tok.comment :: r.1, r.2)
        else lex stack (.comm 0) cs
      else lex stack (.comm 0) cs
  | .direc, c :: cs =>
      if c = '>' then
        let r := lex stack (.data []) cs
        (Tok.directive :: r.1, r.2)
      else lex stack .direc cs
  | .closeTag acc, c :: cs =>
      if nameChar c then lex stack (.closeTag (acc ++ [c])) cs
      else if c = '>' then
        if acc.isEmpty then ([], some (XmlErr.badTok "invalid end element name"))
        else
          match stack with
          | [] => ([], some (XmlErr.badTok "unexpected end element"))
          | top :: rest =>
              if String.mk acc = top then
                let r := lex rest (.data []) cs
                (Tok.elemClose top :: r.1, r.2)
              else ([], some (XmlErr.badTok "mismatched end element"))
      else if isSpaceC c then
        if acc.isEmpty then ([], some (XmlErr.badTok "invalid end element name"))
        else lex stack (.closeTagSp acc) cs
      else ([], some (XmlErr.badTok "invalid end element character"))
  | .closeTagSp acc, c :: cs =>
      if isSpaceC c then lex stack (.closeTagSp acc) cs
      else if c = '>' then
        match stack with
        | [] => ([], some (XmlErr.badTok "unexpected end element"))
        | top :: rest =>
            if String.mk acc = top then
              let r := lex rest (.data []) cs
              (Tok.elemClose top :: r.1, r.2)
            else ([], some (XmlErr.badTok "mismatched end element"))
      else ([], some (XmlErr.badTok "invalid characters between end tag and close"))
  | .openName acc, c :: cs =>
      if nameChar c then lex stack (.openName (acc ++ [c])) cs
      else if c = '>' then
        let nm := String.mk acc
        let r := lex (nm :: stack) (.data []) cs
        (Tok.elemStart nm [] :: r.1, r.2)
      else if isSpaceC c then lex stack (.attrSp (String.mk acc) []) cs
      else if c = '/' then lex stack (.selfClose (String.mk acc) []) cs
      else ([], some (XmlErr.badTok "invalid element name character"))
  | .attrSp el ats, c :: cs =>
      if isSpaceC c then lex stack (.attrSp el ats) cs
      else if c = '>' then
        let r := lex (el :: stack) (.data []) cs
        (Tok.elemStart el ats :: r.1, r.2)
      else if c = '/' then lex stack (.selfClose el ats) cs
      else if nameChar c then lex stack (.attrName el ats [c]) cs
      else ([], some (XmlErr.badTok "invalid attribute name character"))
  | .attrName el ats acc, c :: cs =>
      if nameChar c then lex stack (.attrName el ats (acc ++ [c])) cs
      else if c = '=' then lex stack (.attrAfterEq el ats (String.mk acc)) cs
      else if isSpaceC c then lex stack (.attrBeforeEq el ats (String.mk acc)) cs
      else ([], some (XmlErr.badTok "attribute name without = in element"))
  | .attrBeforeEq el ats an, c :: cs =>
      if isSpaceC c then lex stack (.attrBeforeEq el ats an) cs
      else if c = '=' then lex stack (.attrAfterEq el ats an) cs
      else ([], some (XmlErr.badTok "attribute name without = in element"))
  | .attrAfterEq el ats an, c :: cs =>
      if isSpaceC c then lex stack (.attrAfterEq el ats an) cs
      else if c = '"' then lex stack (.attrVal el ats an '"' []) cs
      else if c = '\'' then lex stack (.attrVal el ats an '\'' []) cs
      else ([], some (XmlErr.badTok "unquoted or missing attribute value in element"))
  | .attrVal el ats an q acc, c :: cs =>
      if c = q then lex stack (.attrSp el (ats ++ [(an, String.mk acc)])) cs
      else lex stack (.attrVal el ats an q (acc ++ [c])) cs
  | .selfClose el ats, c :: cs =>
      if c = '>' then
        let r := lex stack (.data []) cs
        (Tok.elemStart el ats :: Tok.elemClose el :: r.1, r.2)
      else ([], some (XmlErr.badTok "expected close of self-closing element"))
  | .lt, [] => ([], some XmlErr.unexpEOF)
  | .pi _, [] => ([], some XmlErr.unexpEOF)
  | .bang, [] => ([], some XmlErr.unexpEOF)
  | .bangDash, [] => ([], some XmlErr.unexpEOF)
  | .comm _, [] => ([], some XmlErr.unexpEOF)
  | .direc, [] => ([], some XmlErr.unexpEOF)
  | .closeTag _, [] => ([], some XmlErr.unexpEOF)
  | .closeTagSp _, [] => ([], some XmlErr.unexpEOF)
  | .openName _, [] => ([], some XmlErr.unexpEOF)
  | .attrSp _ _, [] => ([], some XmlErr.unexpEOF)
  | .attrName _ _ _, [] => ([], some XmlErr.unexpEOF)
  | .attrBeforeEq _ _ _, [] => ([], some XmlErr.unexpEOF)
  | .attrAfterEq _ _ _, [] => ([], some XmlErr.unexpEOF)
  | .attrVal _ _ _ _ _, [] => ([], some XmlErr.unexpEOF)
  | .selfClose _ _, [] => ([], some XmlErr.unexpEOF)

/-! ## Attribute and value helpers used by the element decoders -/

/-- Go's `encoding/xml` unmarshal assigns an `attr` field once per matching
attribute, in document order, so with duplicates the last one wins. -/
def attrLast (ats : List (String × String)) (k : String) (d : String) : String :=
  ats.foldl (fun acc kv => if kv.1 = k then kv.2 else acc) d

/-- Numeric value of a list of decimal digit characters. -/
def digitsVal (l : List Char) : Nat :=
  l.foldl (fun a c => a * 10 + (c.toNat - '0'.toNat)) 0

/-- Model of `strconv.ParseInt(s, 10, 32)` as used by `encoding/xml` for the
`Epoch int32` attribute: optional sign, at least one digit, no other
characters, result within the 32-bit signed range. -/
def parseGoInt32 (s : String) : Option Int :=
  let l := s.data
  let p : Bool × List Char :=
    match l with
    | '-' :: rest => (true, rest)
    | '+' :: rest => (false, rest)
    | _ => (false, l)
  if p.2.isEmpty then none
  else if p.2.all Char.isDigit then
    let v : Int := if p.1 then -(Int.ofNat (digitsVal p.2)) else Int.ofNat (digitsVal p.2)
    if -(2 ^ 31) ≤ v ∧ v ≤ 2 ^ 31 - 1 then some v else none
  else none

/-- Assign `<version ver=... rel=... epoch=...>` attributes in document order;
a malformed epoch makes `DecodeElement` fail with an unmarshal error, which
is what the loop at repository.go:541 sees. -/
def applyVersionAttrs (v : Version) (ats : List (String × String)) : Except XmlErr Version :=
  ats.foldlM (fun v kv =>
    if kv.1 = "ver" then Except.ok { v with version := kv.2 }
    else if kv.1 = "rel" then Except.ok { v with release := kv.2 }
    else if kv.1 = "epoch" then
      match parseGoInt32 kv.2 with
      | some n => Except.ok { v with epoch := n }
      | none => Except.error (XmlErr.badTok "strconv.ParseInt: invalid syntax")
    else Except.ok v) v

/-! ## The streaming package decode loop (repository.go:521-553)

The Go loop pulls tokens and calls `decoder.DecodeElement(&pkg, ...)` on every
`<package>` start element; `DecodeElement` consumes the element's subtree and
fills the `Package` fields.  The embedding flattens that nested loop into one
pass over the token stream: mode `scan` is the outer token loop, mode `inPkg`
is `DecodeElement` in progress, with `path` the stack of open elements inside
`<package>` and `txt` the pending character data of the field element being
read. -/

/-- Paths (innermost first) inside a `<package>` element whose character data
is captured into a `Package` field. -/
def pkgCollectPath (path : List String) : Bool :=
  path = ["name"] || path = ["arch"] || path = ["summary"] || path = ["checksum"]

/-- Commit collected character data into the `Package` field named by the
closing child element. -/
def pkgCommit (pkg : Package) (f : String) (txt : String) : Package :=
  if f = "name" then { pkg with name := txt }
  else if f = "arch" then { pkg with arch := txt }
  else if f = "summary" then { pkg with summary := txt }
  else if f = "checksum" then { pkg with checksum := { pkg.checksum with value := txt } }
  else pkg

/-- The zero `Package` with its `type` attribute read from the start element,
as `DecodeElement` initialises it. -/
def initPkg (ats : List (String × String)) : Package :=
  { type := attrLast ats "type" "", name := "", arch := "",
    version := { version := "", release := "", epoch := 0 },
    checksum := { value := "", type := "" }, summary := "" }

/-- Modes of the flattened package decode loop. -/
inductive PMode where
  | scan (acc : List Package)
  | inPkg (acc : List Package) (pkg : Package) (path : List String) (txt : String)

/-- The decode loop of `ParseCompressedXMLData` (repository.go:521-553) over a
token stream with terminal outcome `term`.  A token-read error returns an
empty slice plus the wrapped error (line 529); a `DecodeElement` failure
returns the records accumulated so far plus the raw error (line 542);
packages whose `type` is not `"rpm"` are decoded and then dropped
(line 545). -/
def pkgLoop (term : Option XmlErr) : PMode → List Tok → List Package × Option GoErr
  | .scan acc, [] =>
      match term with
      | none => (acc, none)
      | some e => ([], some (GoErr.decodeTokenErr e))
  | .inPkg acc _ _ _, [] => (acc, some (GoErr.decodeElementErr (term.getD XmlErr.unexpEOF)))
  | .scan acc, t :: ts =>
      match t with
      | Tok.elemStart n ats =>
          if n = "package" then pkgLoop term (.inPkg acc (initPkg ats) [] "") ts
          else pkgLoop term (.scan acc) ts
      | _ => pkgLoop term (.scan acc) ts
  | .inPkg acc pkg path txt, t :: ts =>
      match t with
      | Tok.elemStart n ats =>
          if path = [] ∧ n = "version" then
            match applyVersionAttrs pkg.version ats with
            | Except.error e => (acc, some (GoErr.decodeElementErr e))
            | Except.ok v => pkgLoop term (.inPkg acc { pkg with version := v } [n] txt) ts
          else
            let pkg2 := if path = [] ∧ n = "checksum" then
              { pkg with checksum := { pkg.checksum with type := attrLast ats "type" pkg.checksum.type } }
              else pkg
            let txt2 := if pkgCollectPath (n :: path) then "" else txt
            pkgLoop term (.inPkg acc pkg2 (n :: path) txt2) ts
      | Tok.elemClose _ =>
          match path with
          | [] =>
              if pkg.type = "rpm" then pkgLoop term (.scan (acc ++ [pkg])) ts
              else pkgLoop term (.scan acc) ts
          | f :: rest =>
              let pkg2 := if rest = [] ∧ pkgCollectPath [f] then pkgCommit pkg f txt else pkg
              pkgLoop term (.inPkg acc pkg2 rest txt) ts
      | Tok.chardata s =>
          if pkgCollectPath path then pkgLoop term (.inPkg acc pkg path (txt ++ s)) ts
          else pkgLoop term (.inPkg acc pkg path txt) ts
      | _ => pkgLoop term (.inPkg acc pkg path txt) ts

/-! ## Compression sniffing and `ParseCompressedXMLData` (repository.go:483-554) -/

/-- File kinds distinguished by the `switch fileType` at repository.go:504:
the three accepted compression formats and everything else. -/
inductive FileKind where
  | gz
  | zstd
  | xz
  | unknown
deriving DecidableEq, Repr

/-- Magic-number classification of the 20-byte peeked header, following the
`h2non/filetype` matchers used by the switch: gzip `1F 8B 08`, zstd
`28 B5 2F FD`, xz `FD 37 7A 58 5A 00`; any other prefix falls through to
the default branch. -/
def sniffKind : List Nat → FileKind
  | 0x1f :: 0x8b :: 0x08 :: _ => FileKind.gz
  | 0x28 :: 0xb5 :: 0x2f :: 0xfd :: _ => FileKind.zstd
  | 0xfd :: 0x37 :: 0x7a :: 0x58 :: 0x5a :: 0x00 :: _ => FileKind.xz
  | _ => FileKind.unknown

/-- `DefaultMaxXmlSize` from repository.go (512 MB). -/
def DefaultMaxXmlSize : Nat := 512 * 1024 * 1024

/-- The post-decompression stage of `ParseCompressedXMLData`:
`io.LimitReader(reader, maxSize)` truncates the decompressed character
stream at `maxSize`, `xml.NewDecoder` tokenizes it, and the decode loop
extracts packages. -/
def parsePackagesXML (maxSize : Nat) (content : List Char) : List Package × Option GoErr :=
  let r := lex [] (.data []) (content.take maxSize)
  pkgLoop r.2 (.scan []) r.1

/-- `ParseCompressedXMLData` (repository.go:483-554).  `decompress` stands for
the external gzip/xz/zstd reader construction; the function peeks 20 bytes
(failing when fewer are available, as `bufio.Peek` does), classifies the
stream, rejects anything that is not gzip, xz or zstd, decompresses, and
runs the bounded streaming decode. -/
def ParseCompressedXMLData
    (decompress : FileKind → List Nat → Except String (List Char))
    (body : List Nat) (maxSize : Nat) : List Package × Option GoErr :=
  if body.length < 20 then ([], some GoErr.peekErr)
  else
    match sniffKind (body.take 20) with
    | FileKind.unknown => ([], some GoErr.invalidFileType)
    | k =>
        match decompress k body with
        | Except.error e => ([], some (GoErr.unzipErr e))
        | Except.ok content => parsePackagesXML maxSize content

/-! ## `ExtractIfCompressed` (utils.go:16-38)

`ParseCompressedData`, the helper that builds the decompressing reader, is
not among the sources; it is passed in as a parameter, exactly as the other
external decompressors. -/

/-- Result of `ExtractIfCompressed`: either the decompressed character stream
or the original bytes passed through untouched. -/
inductive Extracted where
  | extracted (content : List Char)
  | passthrough (bytes : List Nat)
deriving Repr

/-- `ExtractIfCompressed` (utils.go:16-38): peek 20 bytes, and only when the
header matches gzip, zstd or xz hand the stream to the decompressor;
any other input is returned as-is (the uncompressed branch). -/
def ExtractIfCompressed
    (parseCompressedData : List Nat → Except String (List Char))
    (bytes : List Nat) : Except GoErr Extracted :=
  if bytes.length < 20 then Except.error GoErr.peekErr
  else
    match sniffKind (bytes.take 20) with
    | FileKind.unknown => Except.ok (Extracted.passthrough bytes)
    | _ =>
        match parseCompressedData bytes with
        | Except.error e => Except.error (GoErr.unzipErr e)
        | Except.ok content => Except.ok (Extracted.extracted content)

/-! ## `ParseCompsXML` (repository.go:400-476) -/

/-- Paths (innermost first) inside a `<group>`/`<environment>` element whose
character data is captured: `id`, each `name`, each `description`, and for
groups each `packagereq` inside `packagelist`. -/
def compsCollectPath (path : List String) : Bool :=
  path = ["id"] || path = ["name"] || path = ["description"] ||
    path = ["packagereq", "packagelist"]

/-- Modes of the flattened comps decode loop: the outer token loop, or one
`DecodeElement` in progress for a group (`isGroup = true`) or an
environment. -/
inductive CMode where
  | scan (gs : List PackageGroup) (es : List Environment)
  | inItem (isGroup : Bool) (gs : List PackageGroup) (es : List Environment)
      (id : String) (names descs reqs : List String) (path : List String) (txt : String)

/-- The decode loop of `ParseCompsXML` (repository.go:411-438) over a token
stream.  Unlike the package loop, a token-read error here returns the
groups and environments accumulated so far along with the wrapped error
(line 417); a `DecodeElement` failure likewise returns the accumulated
slices (lines 427 and 433). -/
def compsLoop (term : Option XmlErr) :
    CMode → List Tok → List PackageGroup × List Environment × Option GoErr
  | .scan gs es, [] =>
      match term with
      | none => (gs, es, none)
      | some e => (gs, es, some (GoErr.decodeTokenErr e))
  | .inItem _ gs es _ _ _ _ _ _, [] =>
      (gs, es, some (GoErr.decodeElementErr (term.getD XmlErr.unexpEOF)))
  | .scan gs es, t :: ts =>
      match t with
      | Tok.elemStart n _ =>
          if n = "group" then compsLoop term (.inItem true gs es "" [] [] [] [] "") ts
          else if n = "environment" then compsLoop term (.inItem false gs es "" [] [] [] [] "") ts
          else compsLoop term (.scan gs es) ts
      | _ => compsLoop term (.scan gs es) ts
  | .inItem g gs es id names descs reqs path txt, t :: ts =>
      match t with
      | Tok.elemStart n _ =>
          let txt2 := if compsCollectPath (n :: path) then "" else txt
          compsLoop term (.inItem g gs es id names descs reqs (n :: path) txt2) ts
      | Tok.elemClose _ =>
          match path with
          | [] =>
              if g then
                compsLoop term (.scan (gs ++ [{ id := id, name := names, description := descs, packageList := reqs }]) es) ts
              else
                compsLoop term (.scan gs (es ++ [{ id := id, name := names, description := descs }])) ts
          | _ :: rest =>
              if path = ["id"] then
                compsLoop term (.inItem g gs es txt names descs reqs rest txt) ts
              else if path = ["name"] then
                compsLoop term (.inItem g gs es id (names ++ [txt]) descs reqs rest txt) ts
              else if path = ["description"] then
                compsLoop term (.inItem g gs es id names (descs ++ [txt]) reqs rest txt) ts
              else if path = ["packagereq", "packagelist"] then
                compsLoop term (.inItem g gs es id names descs (reqs ++ [txt]) rest txt) ts
              else compsLoop term (.inItem g gs es id names descs reqs rest txt) ts
      | Tok.chardata s =>
          if compsCollectPath path then
            compsLoop term (.inItem g gs es id names descs reqs path (txt ++ s)) ts
          else compsLoop term (.inItem g gs es id names descs reqs path txt) ts
      | _ => compsLoop term (.inItem g gs es id names descs reqs path txt) ts

/-- The `[]PackageGroup` arm of `processItemsToRemoveLocalized`
(repository.go:446-459).  The Go code slices `item.Name[:1]` and
`item.Description[:1]` without a bounds check; on an item with an empty
`Name` or `Description` slice that slice expression panics with
`slice bounds out of range`, which the model renders as `none`. -/
def processPackageGroupsToRemoveLocalized (items : List PackageGroup) :
    Option (List PackageGroup) :=
  items.mapM (fun item =>
    if item.name.isEmpty ∨ item.description.isEmpty then none
    else some { item with name := item.name.take 1, description := item.description.take 1 })

/-- The `[]Environment` arm of `processItemsToRemoveLocalized`
(repository.go:461-471), with the same out-of-bounds panic modelled as
`none`. -/
def processEnvironmentsToRemoveLocalized (items : List Environment) :
    Option (List Environment) :=
  items.mapM (fun item =>
    if item.name.isEmpty ∨ item.description.isEmpty then none
    else some { item with name := item.name.take 1, description := item.description.take 1 })

/-- Outcome of `ParseCompsXML`: a normal Go return, or a runtime panic raised
by the localisation stripping. -/
inductive CompsResult where
  | panicked
  | ok (packageGroups : List PackageGroup) (environments : List Environment) (err : Option GoErr)
deriving DecidableEq, Repr

/-- `ParseCompsXML` (repository.go:400-444): run the token loop; an error
path returns the accumulated slices before the localisation stripping is
reached; on success the stripping runs and can panic on an empty
name/description list. -/
def ParseCompsXML (byteValue : List Char) : CompsResult :=
  let r := lex [] (.data []) byteValue
  match compsLoop r.2 (.scan [] []) r.1 with
  | (gs, es, some e) => CompsResult.ok gs es (some e)
  | (gs, es, none) =>
      match processPackageGroupsToRemoveLocalized gs,
            processEnvironmentsToRemoveLocalized es with
      | some gs2, some es2 => CompsResult.ok gs2 es2 none
      | _, _ => CompsResult.panicked

/-! ## `ParseRepomdXML` (repository.go:381-397) and the repomd href lookups -/

/-- `ParseRepomdXML`: `xml.Unmarshal` (Go standard library, passed in as
`unmarshal`) fills the structured result, then the raw source text is
stored alongside it in `RepomdString`. -/
def ParseRepomdXML (unmarshal : List Char → Except String Repomd)
    (byteValue : List Char) : Except String Repomd :=
  match unmarshal byteValue with
  | Except.error e => Except.error ("xml.Unmarshal failure: " ++ e)
  | Except.ok result => Except.ok { result with repomdString := some (String.mk byteValue) }

/-- The location-selection loop of `getPrimaryURL` (repository.go:354-361):
scan all `Data` entries, overwriting the location on every entry of type
`"primary"`, and fail when the result is empty. -/
def getPrimaryLocation (repomd : Repomd) : Except String String :=
  let primaryLocation :=
    repomd.data.foldl (fun acc d => if d.type = "primary" then d.location.href else acc) ""
  if primaryLocation = "" then
    Except.error "GET error: Unable to parse primary location in repomd.xml"
  else Except.ok primaryLocation

/-- The location-selection loop of `getCompsURL` (repository.go:320-328),
identical to the primary lookup but for type `"group"`. -/
def getCompsLocation (repomd : Repomd) : Except String String :=
  let compsLocation :=
    repomd.data.foldl (fun acc d => if d.type = "group" then d.location.href else acc) ""
  if compsLocation = "" then
    Except.error "GET error: Unable to parse comps location in repomd.xml"
  else Except.ok compsLocation

/-! ## `parseModuleMDs` (module stream decoder) -/

/-- Type-erased YAML scalar/collection values, the shape produced by phase 1's
`map[string]interface{}` decode. -/
inductive YVal where
  | str (s : String)
  | num (n : Int)
  | boolv (b : Bool)
  | nullv
  | listv (vs : List YVal)
  | mapv (kvs : List (String × YVal))

/-- A phase-1 generic document: the top-level mapping. -/
abbrev YDoc := List (String × YVal)

/-- Lookup in a generic document (Go map indexing). -/
def yLookup (d : YDoc) (k : String) : Option YVal :=
  (d.find? (fun kv => kv.1 = k)).map (fun kv => kv.2)

/-- The Go comparison `doc["document"] == "modulemd"`: true exactly when the
key is present and holds the string `"modulemd"`. -/
def isModulemdDoc (d : YDoc) : Bool :=
  match yLookup d "document" with
  | some (YVal.str s) => s = "modulemd"
  | _ => false

/-- The `Stream` data of a modulemd document (mapstructure weak decode
target). -/
structure ModuleStream where
  name : String
  stream : String
  version : String
  context : String
  arch : String
  summary : String
  description : String
  artifacts : List String
  profiles : List (String × List String)
deriving DecidableEq, Repr

/-- A decoded modulemd document. -/
structure ModuleMD where
  document : String
  version : Int
  data : ModuleStream
deriving DecidableEq, Repr

/-- The loop body of `parseModuleMDs`: phase 1 documents arrive one at a time
(`Except.error` models a YAML decode error, end of list models `io.EOF`);
documents whose `document` key is `"modulemd"` are re-decoded through
mapstructure (`msDecode`), every other document kind is skipped.  Both
error paths return `nil` plus the wrapped error, discarding the records
accumulated so far.  (`mapstructure.NewDecoder` cannot fail here: the
config always carries a valid non-nil result pointer.) -/
def parseModuleMDsGo (msDecode : YDoc → Except String ModuleMD)
    (acc : List ModuleMD) : List (Except String YDoc) → Except String (List ModuleMD)
  | [] => Except.ok acc
  | Except.error e :: _ => Except.error ("error decoding streams: " ++ e)
  | Except.ok d :: rest =>
      if isModulemdDoc d then
        match msDecode d with
        | Except.error e => Except.error ("error decoding map: " ++ e)
        | Except.ok m => parseModuleMDsGo msDecode (acc ++ [m]) rest
      else parseModuleMDsGo msDecode acc rest

/-- `parseModuleMDs` (module stream source, lines 124-163) over an
already-extracted stream of phase-1 document results. -/
def parseModuleMDs (msDecode : YDoc → Except String ModuleMD)
    (stream : List (Except String YDoc)) : Except String (List ModuleMD) :=
  parseModuleMDsGo msDecode [] stream

/-! ## `FetchGPGKey` (gpg key source, lines 13-35) -/

/-- `FetchGPGKey` after the transport phase: `statusCode` and `body` are the
HTTP response, `parseArmoredKeyRing` stands for
`openpgp.ReadArmoredKeyRing`.  The embedding reproduces the source's
control flow literally, including the condition
`if _, openpgpErr := openpgp.ReadArmoredKeyRing(...); err != nil` at line
31, which tests the outer `err` variable (necessarily `nil` at that
point) instead of `openpgpErr`. -/
def FetchGPGKey (parseArmoredKeyRing : String → Except String Unit)
    (statusCode : Int) (body : String) : Option String × Int × Option String :=
  let gpgKeyString := body
  let err : Option String := none
  if (err = none ∧ statusCode < 200) ∨ 299 < statusCode then
    (none, statusCode, some ("received http " ++ toString statusCode))
  else
    let openpgpErr : Option String :=
      match parseArmoredKeyRing gpgKeyString with
      | Except.ok _ => none
      | Except.error e => some e
    if err ≠ none then (none, statusCode, openpgpErr)
    else (some gpgKeyString, statusCode, none)

/-! ## Canonical document serializers

The universal claims about the streaming decoders quantify over well-formed
catalogs and comps documents.  They are stated over the canonical
serialization of a list of source records: every element written as
`<name attr="value">` content `</name>` (or self-closing), with the field
strings restricted to characters that need no XML escaping.  The parsers are
then proved to invert these serializers. -/

/-- Prepend already-produced tokens to a tokenizer result. -/
def prepToks (ts : List Tok) (r : List Tok × Option XmlErr) : List Tok × Option XmlErr :=
  (ts ++ r.1, r.2)

/-- Serialized form of an attribute list: ` k="v"` for each pair. -/
def attrsChars (al : List (String × String)) : List Char :=
  al.foldr (fun kv r => ' ' :: kv.1.data ++ '=' :: '"' :: kv.2.data ++ '"' :: r) []

/-- Serialized start tag `<nm k="v" ...>`. -/
def startTagChars (nm : String) (al : List (String × String)) : List Char :=
  '<' :: nm.data ++ attrsChars al ++ ['>']

/-- Serialized self-closing tag `<nm k="v" .../>`. -/
def selfTagChars (nm : String) (al : List (String × String)) : List Char :=
  '<' :: nm.data ++ attrsChars al ++ ['/', '>']

/-- Serialized end tag `</nm>`. -/
def endTagChars (nm : String) : List Char :=
  '<' :: '/' :: nm.data ++ ['>']

/-- Serialized text element `<nm>s</nm>`. -/
def textElemChars (nm s : String) : List Char :=
  startTagChars nm [] ++ s.data ++ endTagChars nm

/-- Concatenation of the serializations of a list of items. -/
def joinChars {α : Type} (f : α → List Char) (l : List α) : List Char :=
  (l.map f).foldr (fun a b => a ++ b) []

/-- Concatenation of the token lists of a list of items. -/
def joinToks {α : Type} (g : α → List Tok) (l : List α) : List Tok :=
  (l.map g).foldr (fun a b => a ++ b) []

/-- Tokens of a text element. -/
def textToks (nm s : String) : List Tok :=
  [Tok.elemStart nm [], Tok.chardata s, Tok.elemClose nm]

/-- A usable XML name: nonempty, all name characters. -/
def nameOk (s : String) : Bool :=
  !s.data.isEmpty && s.data.all nameChar

/-- Escape-free nonempty element text. -/
def textOk (s : String) : Bool :=
  !s.data.isEmpty && s.data.all (fun c => !(c = '<' || c = '&'))

/-- Escape-free attribute value (possibly empty). -/
def attrOk (s : String) : Bool :=
  s.data.all (fun c => !(c = '"' || c = '<' || c = '&'))

/-- Attribute-list safety: usable names and escape-free double-quoted values. -/
def attrsOk (al : List (String × String)) : Bool :=
  al.all (fun kv => nameOk kv.1 && attrOk kv.2)

/-- Source fields of one serialized `<package>` element of a primary.xml
catalog. -/
structure PkgSrc where
  ptype : String
  name : String
  arch : String
  epoch : String
  ver : String
  rel : String
  ctype : String
  cval : String
  summary : String
deriving DecidableEq, Repr

/-- Field strings of a package source are escape-free and its epoch parses as
an int32, so its canonical serialization decodes without unmarshal
errors. -/
def safePkgSrc (p : PkgSrc) : Bool :=
  attrOk p.ptype && textOk p.name && textOk p.arch && (parseGoInt32 p.epoch).isSome &&
    attrOk p.epoch && attrOk p.ver && attrOk p.rel && attrOk p.ctype &&
    textOk p.cval && textOk p.summary

/-- Canonical serialization of one `<package>` element. -/
def mkPkgChars (p : PkgSrc) : List Char :=
  startTagChars "package" [("type", p.ptype)] ++
    textElemChars "name" p.name ++
    textElemChars "arch" p.arch ++
    selfTagChars "version" [("epoch", p.epoch), ("ver", p.ver), ("rel", p.rel)] ++
    startTagChars "checksum" [("type", p.ctype)] ++ p.cval.data ++ endTagChars "checksum" ++
    textElemChars "summary" p.summary ++
    endTagChars "package"

/-- Token stream of one serialized `<package>` element. -/
def pkgToks (p : PkgSrc) : List Tok :=
  Tok.elemStart "package" [("type", p.ptype)] ::
    (textToks "name" p.name ++ textToks "arch" p.arch ++
      [Tok.elemStart "version" [("epoch", p.epoch), ("ver", p.ver), ("rel", p.rel)],
        Tok.elemClose "version",
        Tok.elemStart "checksum" [("type", p.ctype)], Tok.chardata p.cval,
        Tok.elemClose "checksum"] ++
      textToks "summary" p.summary ++ [Tok.elemClose "package"])

/-- The `Package` record that Go's `DecodeElement` produces from the
canonical serialization of `p`. -/
def toPackage (p : PkgSrc) : Package :=
  { type := p.ptype, name := p.name, arch := p.arch,
    version := { version := p.ver, release := p.rel, epoch := (parseGoInt32 p.epoch).getD 0 },
    checksum := { value := p.cval, type := p.ctype }, summary := p.summary }

/-- Canonical serialization of a primary.xml catalog. -/
def mkCatalogChars (ps : List PkgSrc) : List Char :=
  startTagChars "metadata" [] ++ joinChars mkPkgChars ps ++ endTagChars "metadata"

/-- Source fields of one serialized `<group>` element of a comps document. -/
structure GroupSrc where
  gid : String
  names : List String
  descs : List String
  reqs : List String
deriving DecidableEq, Repr

/-- Source fields of one serialized `<environment>` element. -/
structure EnvSrc where
  eid : String
  names : List String
  descs : List String
deriving DecidableEq, Repr

/-- Escape-free field strings of a group source. -/
def safeGroupSrc (g : GroupSrc) : Bool :=
  textOk g.gid && g.names.all textOk && g.descs.all textOk && g.reqs.all textOk

/-- Escape-free field strings of an environment source. -/
def safeEnvSrc (e : EnvSrc) : Bool :=
  textOk e.eid && e.names.all textOk && e.descs.all textOk

/-- Canonical serialization of one `<group>` element. -/
def mkGroupChars (g : GroupSrc) : List Char :=
  startTagChars "group" [] ++ textElemChars "id" g.gid ++
    joinChars (textElemChars "name") g.names ++
    joinChars (textElemChars "description") g.descs ++
    startTagChars "packagelist" [] ++
    joinChars (textElemChars "packagereq") g.reqs ++
    endTagChars "packagelist" ++ endTagChars "group"

/-- Token stream of one serialized `<group>` element. -/
def groupToks (g : GroupSrc) : List Tok :=
  Tok.elemStart "group" [] ::
    (textToks "id" g.gid ++ joinToks (textToks "name") g.names ++
      joinToks (textToks "description") g.descs ++
      Tok.elemStart "packagelist" [] :: joinToks (textToks "packagereq") g.reqs ++
      [Tok.elemClose "packagelist", Tok.elemClose "group"])

/-- Canonical serialization of one `<environment>` element. -/
def mkEnvChars (e : EnvSrc) : List Char :=
  startTagChars "environment" [] ++ textElemChars "id" e.eid ++
    joinChars (textElemChars "name") e.names ++
    joinChars (textElemChars "description") e.descs ++
    endTagChars "environment"

/-- Token stream of one serialized `<environment>` element. -/
def envToks (e : EnvSrc) : List Tok :=
  Tok.elemStart "environment" [] ::
    (textToks "id" e.eid ++ joinToks (textToks "name") e.names ++
      joinToks (textToks "description") e.descs ++ [Tok.elemClose "environment"])

/-- Canonical serialization of a comps document. -/
def mkCompsChars (gs : List GroupSrc) (es : List EnvSrc) : List Char :=
  startTagChars "comps" [] ++ joinChars mkGroupChars gs ++ joinChars mkEnvChars es ++
    endTagChars "comps"

/-- The raw `PackageGroup` accumulated by the comps decode loop before
localisation stripping. -/
def rawGroup (g : GroupSrc) : PackageGroup :=
  { id := g.gid, name := g.names, description := g.descs, packageList := g.reqs }

/-- The `PackageGroup` returned by `ParseCompsXML` after localisation
stripping. -/
def outGroup (g : GroupSrc) : PackageGroup :=
  { id := g.gid, name := g.names.take 1, description := g.descs.take 1, packageList := g.reqs }

/-- The raw `Environment` accumulated by the comps decode loop. -/
def rawEnv (e : EnvSrc) : Environment :=
  { id := e.eid, name := e.names, description := e.descs }

/-- The `Environment` returned by `ParseCompsXML` after localisation
stripping. -/
def outEnv (e : EnvSrc) : Environment :=
  { id := e.eid, name := e.names.take 1, description := e.descs.take 1 }

/-! ## Concrete inputs used by counterexamples and witnesses -/

/-- A 20-byte stream with the gzip magic header. -/
def gzHeaderBytes : List Nat := [0x1f, 0x8b, 0x08] ++ List.replicate 17 0

/-- An rpm-typed package source. -/
def wPkg1 : PkgSrc :=
  { ptype := "rpm", name := "alpha", arch := "x86_64", epoch := "1", ver := "2.0",
    rel := "3.el9", ctype := "sha1", cval := "abc123", summary := "first" }

/-- A non-rpm package source (decoded then dropped by the rpm filter). -/
def wPkg2 : PkgSrc :=
  { ptype := "srpm", name := "beta", arch := "src", epoch := "0", ver := "1.0",
    rel := "1", ctype := "sha256", cval := "def456", summary := "sourcepkg" }

/-- A second rpm-typed package source. -/
def wPkg3 : PkgSrc :=
  { ptype := "rpm", name := "gamma", arch := "aarch64", epoch := "4", ver := "5.1",
    rel := "2", ctype := "sha1", cval := "fedcba", summary := "second" }

/-- Decompressed content cut off inside an open element. -/
def c1TruncContent : List Char := ("<metadata><package>abc").data

/-- Decompressed content with no markup at all (the `aaaa.xml` mock). -/
def c1NoMarkupContent : List Char := List.replicate 24 'a'

/-- A mismatched end tag: reading it is a `Token` error. -/
def c2BadTailChars : List Char := ("</bogus>").data

/-- A well-formed package element whose `epoch` attribute does not parse as an
int32: `DecodeElement` fails on it. -/
def c2BadPkgChars : List Char := ("<package type=\"rpm\"><version epoch=\"x\"/></package>").data

/-- A catalog prefix of good packages followed by a token-level syntax error. -/
def mkTokenErrCatalogChars (ps : List PkgSrc) : List Char :=
  startTagChars "metadata" [] ++ joinChars mkPkgChars ps ++ c2BadTailChars

/-- A catalog prefix of good packages followed by a package element that fails
structural decode. -/
def mkElemErrCatalogChars (ps : List PkgSrc) : List Char :=
  startTagChars "metadata" [] ++ joinChars mkPkgChars ps ++ c2BadPkgChars

/-- A valid single-package catalog presented as uncompressed bytes. -/
def c4UncompressedBytes : List Nat := (mkCatalogChars [wPkg1]).map Char.toNat

/-- A generic modulemd document (phase-1 shape). -/
def wDocModulemd : YDoc :=
  [("document", YVal.str "modulemd"), ("version", YVal.num 2),
    ("data", YVal.mapv [("name", YVal.str "ruby")])]

/-- A generic modulemd-defaults document, a kind the loop must skip. -/
def wDocDefaults : YDoc :=
  [("document", YVal.str "modulemd-defaults"), ("version", YVal.num 1)]

/-- A generic obsoletes document, another kind the loop must skip. -/
def wDocObsoletes : YDoc :=
  [("document", YVal.str "modulemd-obsoletes")]

/-- The typed record the witness mapstructure decode returns. -/
def wModuleMD : ModuleMD :=
  { document := "modulemd", version := 2,
    data := { name := "ruby", stream := "2.5", version := "8", context := "c",
              arch := "x86_64", summary := "s", description := "d",
              artifacts := ["ruby-2.5.rpm"], profiles := [("common", ["ruby"])] } }

/-- A repomd index with duplicate `primary` and `group` entries. -/
def wRepomdDup : Repomd :=
  { data :=
      [{ type := "primary", location := { href := "repodata/first-primary.xml.gz" } },
        { type := "group", location := { href := "repodata/first-comps.xml" } },
        { type := "modules", location := { href := "repodata/modules.yaml.gz" } },
        { type := "primary", location := { href := "repodata/last-primary.xml.gz" } },
        { type := "group", location := { href := "repodata/last-comps.xml" } }],
    revision := "1", repomdString := none }

/-- A comps document whose single group has no `<name>` entry. -/
def c8ZeroNameComps : List Char := ("<comps><group><id>g</id></group></comps>").data

/-- The same group with one name and one description, which decodes fine. -/
def c8GoodComps : List Char :=
  ("<comps><group><id>g</id><name>N</name><description>D</description></group></comps>").data

/-- A group source with a default-locale and a translated name and
description. -/
def wGroup : GroupSrc :=
  { gid := "core", names := ["Core", "Kern"], descs := ["Smallest set", "Kleinste Menge"],
    reqs := ["bash", "coreutils"] }

/-- An environment source with a default-locale and a translated name and
description. -/
def wEnv : EnvSrc :=
  { eid := "minimal", names := ["Minimal", "Minime"], descs := ["Tiny", "Minuscule"] }

/-! ## Tokenizer stepping lemmas -/

theorem stringMkData (s : String) : String.mk s.data = s := rfl

theorem lexDataLt (stack : List String) (cs : List Char) :
    lex stack (.data []) ('<' :: cs) = lex stack .lt cs := rfl

theorem lexAttrSpSpace (stack : List String) (el : String) (ats : List (String × String))
    (cs : List Char) :
    lex stack (.attrSp el ats) (' ' :: cs) = lex stack (.attrSp el ats) cs := rfl

theorem lexAttrNameEq (stack : List String) (el : String) (ats : List (String × String))
    (acc : List Char) (cs : List Char) :
    lex stack (.attrName el ats acc) ('=' :: cs) =
      lex stack (.attrAfterEq el ats (String.mk acc)) cs := rfl

theorem lexAttrAfterEqQuote (stack : List String) (el an : String)
    (ats : List (String × String)) (cs : List Char) :
    lex stack (.attrAfterEq el ats an) ('"' :: cs) =
      lex stack (.attrVal el ats an '"' []) cs := rfl

theorem lexAttrValEnd (stack : List String) (el an : String) (ats : List (String × String))
    (acc : List Char) (cs : List Char) :
    lex stack (.attrVal el ats an '"' acc) ('"' :: cs) =
      lex stack (.attrSp el (ats ++ [(an, String.mk acc)])) cs := rfl

/-- Name characters are not spaces and none of the scanner's delimiter
characters. -/
theorem nameCharFacts {c : Char} (hc : nameChar c = true) :
    isSpaceC c = false ∧ ¬ c = '>' ∧ ¬ c = '/' ∧ ¬ c = '=' ∧ ¬ c = '<' ∧
      ¬ c = '?' ∧ ¬ c = '!' := by
  refine ⟨?_, ?_, ?_, ?_, ?_, ?_, ?_⟩
  · cases h : isSpaceC c with
    | false => rfl
    | true =>
        exfalso
        have h2 : ((c = ' ' ∨ c = '\t') ∨ c = '\n') ∨ c = '\r' := by
          simpa [isSpaceC, or_assoc] using h
        rcases h2 with ((h1 | h1) | h1) | h1 <;> subst h1 <;> exact absurd hc (by decide)
  · intro h; subst h; exact absurd hc (by decide)
  · intro h; subst h; exact absurd hc (by decide)
  · intro h; subst h; exact absurd hc (by decide)
  · intro h; subst h; exact absurd hc (by decide)
  · intro h; subst h; exact absurd hc (by decide)
  · intro h; subst h; exact absurd hc (by decide)

theorem lexAttrSpToName {c : Char} (hc : nameChar c = true) (stack : List String)
    (el : String) (ats : List (String × String)) (cs : List Char) :
    lex stack (.attrSp el ats) (c :: cs) = lex stack (.attrName el ats [c]) cs := by
  obtain ⟨h1, h2, h3, _, _, _, _⟩ := nameCharFacts hc
  simp [lex, h1, h2, h3, hc]

theorem lexLtToOpenName {c : Char} (hc : nameChar c = true) (stack : List String)
    (cs : List Char) :
    lex stack .lt (c :: cs) = lex stack (.openName [c]) cs := by
  obtain ⟨_, _, h3, _, _, hq, hb⟩ := nameCharFacts hc
  simp [lex, hq, hb, h3, hc]

/-- Escape-free attribute values contain no double quote. -/
theorem attrOkNoQuote (v : String) (hv : attrOk v = true) :
    v.data.all (fun c => !(c = '"')) = true := by
  simp only [attrOk, List.all_eq_true] at hv ⊢
  intro c hcmem
  have h2 := hv c hcmem
  simp only [Bool.not_eq_true'] at h2 ⊢
  simp only [Bool.or_eq_false_iff] at h2
  exact h2.1.1

/-! ## Tokenizer accumulation lemmas -/

theorem lexDataAccum (s : List Char) (hs : s.all (fun c => !(c = '<')) = true) :
    ∀ (acc : List Char) (stack : List String) (rest : List Char),
    lex stack (.data acc) (s ++ rest) = lex stack (.data (acc ++ s)) rest := by
  induction s with
  | nil => intro acc stack rest; simp
  | cons c cs ih =>
      intro acc stack rest
      simp only [List.all_cons, Bool.and_eq_true] at hs
      have hc : ¬ (c = '<') := by simpa using hs.1
      simp only [List.cons_append, lex, if_neg hc, List.append_eq]
      rw [ih hs.2]
      simp

theorem lexOpenNameAccum (s : List Char) (hs : s.all nameChar = true) :
    ∀ (acc : List Char) (stack : List String) (rest : List Char),
    lex stack (.openName acc) (s ++ rest) = lex stack (.openName (acc ++ s)) rest := by
  induction s with
  | nil => intro acc stack rest; simp
  | cons c cs ih =>
      intro acc stack rest
      simp only [List.all_cons, Bool.and_eq_true] at hs
      simp only [List.cons_append, lex, hs.1, if_pos, List.append_eq, if_true]
      rw [ih hs.2]
      simp

theorem lexCloseTagAccum (s : List Char) (hs : s.all nameChar = true) :
    ∀ (acc : List Char) (stack : List String) (rest : List Char),
    lex stack (.closeTag acc) (s ++ rest) = lex stack (.closeTag (acc ++ s)) rest := by
  induction s with
  | nil => intro acc stack rest; simp
  | cons c cs ih =>
      intro acc stack rest
      simp only [List.all_cons, Bool.and_eq_true] at hs
      simp only [List.cons_append, lex, hs.1, if_pos, List.append_eq, if_true]
      rw [ih hs.2]
      simp

theorem lexAttrNameAccum (s : List Char) (hs : s.all nameChar = true) :
    ∀ (acc : List Char) (el : String) (ats : List (String × String)) (stack : List String)
      (rest : List Char),
    lex stack (.attrName el ats acc) (s ++ rest) =
      lex stack (.attrName el ats (acc ++ s)) rest := by
  induction s with
  | nil => intro acc el ats stack rest; simp
  | cons c cs ih =>
      intro acc el ats stack rest
      simp only [List.all_cons, Bool.and_eq_true] at hs
      simp only [List.cons_append, lex, hs.1, if_pos, List.append_eq, if_true]
      rw [ih hs.2]
      simp

theorem lexAttrValAccum (s : List Char) (q : Char) (hs : s.all (fun c => !(c = q)) = true) :
    ∀ (acc : List Char) (el an : String) (ats : List (String × String)) (stack : List String)
      (rest : List Char),
    lex stack (.attrVal el ats an q acc) (s ++ rest) =
      lex stack (.attrVal el ats an q (acc ++ s)) rest := by
  induction s with
  | nil => intro acc el an ats stack rest; simp
  | cons c cs ih =>
      intro acc el an ats stack rest
      simp only [List.all_cons, Bool.and_eq_true] at hs
      have hc : ¬ (c = q) := by simpa using hs.1
      simp only [List.cons_append, lex, if_neg hc, List.append_eq]
      rw [ih hs.2]
      simp

/-! ## Tag-level tokenizer lemmas -/


theorem lexAttrsSp (al : List (String × String)) (hal : attrsOk al = true) (sc : Bool) :
    ∀ (ats : List (String × String)) (el : String) (stack : List String) (rest : List Char),
    lex stack (.attrSp el ats) (attrsChars al ++ (if sc then ['/', '>'] else ['>']) ++ rest) =
      if sc then
        prepToks [Tok.elemStart el (ats ++ al), Tok.elemClose el] (lex stack (.data []) rest)
      else
        prepToks [Tok.elemStart el (ats ++ al)] (lex (el :: stack) (.data []) rest) := by
  induction al with
  | nil =>
      intro ats el stack rest
      cases sc with
      | false =>
          simp only [attrsChars, List.foldr_nil, List.nil_append, if_neg (by decide : ¬ (false = true))]
          simp [lex, prepToks, show isSpaceC '>' = false from rfl]
      | true =>
          simp only [attrsChars, List.foldr_nil, List.nil_append, if_pos rfl]
          simp [lex, prepToks, show isSpaceC '/' = false from rfl,
            show isSpaceC '>' = false from rfl]
  | cons kv al ih =>
      intro ats el stack rest
      simp only [attrsOk, List.all_cons, Bool.and_eq_true] at hal
      obtain ⟨⟨hk, hv⟩, hal2⟩ := hal
      simp only [nameOk, Bool.and_eq_true] at hk
      obtain ⟨hkne, hkchars⟩ := hk
      obtain ⟨k, v⟩ := kv
      obtain ⟨kc, kcs, hkd⟩ : ∃ c cs, k.data = c :: cs := by
        cases hd : k.data with
        | nil => exfalso; rw [hd] at hkne; simp at hkne
        | cons c cs => exact ⟨c, cs, rfl⟩
      simp only at hkchars hv
      have hkchars2 := hkchars
      rw [hkd, List.all_cons, Bool.and_eq_true] at hkchars2
      obtain ⟨hkc, hkcs⟩ := hkchars2
      show lex stack (.attrSp el ats)
        ((' ' :: k.data ++ '=' :: '"' :: v.data ++ '"' :: attrsChars al) ++ _ ++ rest) = _
      rw [hkd]
      simp only [List.cons_append, List.append_assoc]
      rw [lexAttrSpSpace, lexAttrSpToName hkc]
      have haccum := lexAttrNameAccum kcs hkcs [kc] el ats stack
      rw [haccum]
      rw [show ([kc] ++ kcs : List Char) = k.data from hkd.symm]
      rw [lexAttrNameEq, stringMkData]
      rw [lexAttrAfterEqQuote]
      rw [lexAttrValAccum v.data '"' (attrOkNoQuote v hv)]
      simp only [List.nil_append]
      rw [lexAttrValEnd, stringMkData]
      rw [← List.append_assoc (attrsChars al)]
      rw [ih hal2 (ats ++ [(k, v)]) el stack rest]
      cases sc <;> simp

/-! ## More stepping lemmas -/

theorem lexOpenNameGt (stack : List String) (acc : List Char) (cs : List Char) :
    lex stack (.openName acc) ('>' :: cs) =
      prepToks [Tok.elemStart (String.mk acc) []] (lex (String.mk acc :: stack) (.data []) cs) := rfl

theorem lexOpenNameSpace (stack : List String) (acc : List Char) (cs : List Char) :
    lex stack (.openName acc) (' ' :: cs) = lex stack (.attrSp (String.mk acc) []) cs := rfl

theorem lexOpenNameSelf (stack : List String) (acc : List Char) (cs : List Char) :
    lex stack (.openName acc) ('/' :: '>' :: cs) =
      prepToks [Tok.elemStart (String.mk acc) [], Tok.elemClose (String.mk acc)]
        (lex stack (.data []) cs) := rfl

theorem lexLtSlash (stack : List String) (cs : List Char) :
    lex stack .lt ('/' :: cs) = lex stack (.closeTag []) cs := rfl

theorem lexDataLtEmit (stack : List String) (acc : List Char) (hne : acc.isEmpty = false)
    (cs : List Char) :
    lex stack (.data acc) ('<' :: cs) =
      prepToks [Tok.chardata (String.mk acc)] (lex stack .lt cs) := by
  simp [lex, hne, prepToks]

theorem lexCloseTagGt (top : String) (stack : List String) (acc : List Char)
    (hne : acc.isEmpty = false) (cs : List Char) :
    lex (top :: stack) (.closeTag acc) ('>' :: cs) =
      if String.mk acc = top then
        prepToks [Tok.elemClose top] (lex stack (.data []) cs)
      else ([], some (XmlErr.badTok "mismatched end element")) := by
  simp [lex, hne, prepToks, show nameChar '>' = false from rfl]

/-- Finishing an open tag from the name-scanning state: consume the serialized
attributes and the closing `>` or `/>`. -/
theorem lexOpenTagFinish (al : List (String × String)) (hal : attrsOk al = true) (sc : Bool)
    (acc : List Char) (stack : List String) (rest : List Char) :
    lex stack (.openName acc) (attrsChars al ++ (if sc then ['/', '>'] else ['>']) ++ rest) =
      if sc then
        prepToks [Tok.elemStart (String.mk acc) al, Tok.elemClose (String.mk acc)]
          (lex stack (.data []) rest)
      else
        prepToks [Tok.elemStart (String.mk acc) al]
          (lex (String.mk acc :: stack) (.data []) rest) := by
  cases al with
  | nil =>
      cases sc with
      | false =>
          simp only [attrsChars, List.foldr_nil, List.nil_append, if_neg (by decide : ¬ (false = true)),
            if_pos]
          exact lexOpenNameGt stack acc rest
      | true =>
          simp only [attrsChars, List.foldr_nil, List.nil_append, if_pos rfl]
          exact lexOpenNameSelf stack acc rest
  | cons kv al =>
      have h := lexAttrsSp (kv :: al) hal sc [] (String.mk acc) stack rest
      rw [show attrsChars (kv :: al) =
        ' ' :: (kv.1.data ++ '=' :: '"' :: kv.2.data ++ '"' :: attrsChars al) from rfl] at h ⊢
      simp only [List.cons_append, List.append_assoc] at h ⊢
      rw [lexAttrSpSpace] at h
      rw [lexOpenNameSpace]
      simpa using h

/-- Lexing a serialized start tag. -/
theorem lexStartTag (nm : String) (hnm : nameOk nm = true) (al : List (String × String))
    (hal : attrsOk al = true) (stack : List String) (rest : List Char) :
    lex stack (.data []) (startTagChars nm al ++ rest) =
      prepToks [Tok.elemStart nm al] (lex (nm :: stack) (.data []) rest) := by
  simp only [nameOk, Bool.and_eq_true] at hnm
  obtain ⟨hne, hchars⟩ := hnm
  obtain ⟨c, cs, hd⟩ : ∃ c cs, nm.data = c :: cs := by
    cases hd : nm.data with
    | nil => exfalso; rw [hd] at hne; simp at hne
    | cons c cs => exact ⟨c, cs, rfl⟩
  have hchars2 := hchars
  rw [hd, List.all_cons, Bool.and_eq_true] at hchars2
  obtain ⟨hc, hcs⟩ := hchars2
  show lex stack (.data []) (('<' :: nm.data ++ attrsChars al ++ ['>']) ++ rest) = _
  rw [hd]
  simp only [List.cons_append, List.append_assoc]
  rw [lexDataLt, lexLtToOpenName hc]
  have haccum := lexOpenNameAccum cs hcs [c] stack
  rw [haccum]
  rw [show ([c] ++ cs : List Char) = nm.data from hd.symm]
  have h := lexOpenTagFinish al hal false nm.data stack rest
  simp only [if_neg (by decide : ¬ (false = true)), stringMkData] at h
  simpa using h

/-- Lexing a serialized self-closing tag. -/
theorem lexSelfTag (nm : String) (hnm : nameOk nm = true) (al : List (String × String))
    (hal : attrsOk al = true) (stack : List String) (rest : List Char) :
    lex stack (.data []) (selfTagChars nm al ++ rest) =
      prepToks [Tok.elemStart nm al, Tok.elemClose nm] (lex stack (.data []) rest) := by
  simp only [nameOk, Bool.and_eq_true] at hnm
  obtain ⟨hne, hchars⟩ := hnm
  obtain ⟨c, cs, hd⟩ : ∃ c cs, nm.data = c :: cs := by
    cases hd : nm.data with
    | nil => exfalso; rw [hd] at hne; simp at hne
    | cons c cs => exact ⟨c, cs, rfl⟩
  have hchars2 := hchars
  rw [hd, List.all_cons, Bool.and_eq_true] at hchars2
  obtain ⟨hc, hcs⟩ := hchars2
  show lex stack (.data []) (('<' :: nm.data ++ attrsChars al ++ ['/', '>']) ++ rest) = _
  rw [hd]
  simp only [List.cons_append, List.append_assoc]
  rw [lexDataLt, lexLtToOpenName hc]
  have haccum := lexOpenNameAccum cs hcs [c] stack
  rw [haccum]
  rw [show ([c] ++ cs : List Char) = nm.data from hd.symm]
  have h := lexOpenTagFinish al hal true nm.data stack rest
  simp only [if_pos rfl, stringMkData] at h
  simpa using h

/-- Lexing a serialized end tag from the just-after-`<` state. -/
theorem lexEndTagLt (nm : String) (hnm : nameOk nm = true) (stack : List String)
    (rest : List Char) :
    lex (nm :: stack) .lt ('/' :: (nm.data ++ '>' :: rest)) =
      prepToks [Tok.elemClose nm] (lex stack (.data []) rest) := by
  simp only [nameOk, Bool.and_eq_true] at hnm
  obtain ⟨hne, hchars⟩ := hnm
  rw [lexLtSlash]
  have haccum := lexCloseTagAccum nm.data hchars [] (nm :: stack)
  rw [haccum]
  simp only [List.nil_append]
  have hnmne : nm.data.isEmpty = false := by
    cases hd : nm.data with
    | nil => exfalso; rw [hd] at hne; simp at hne
    | cons c cs => rfl
  rw [lexCloseTagGt nm stack nm.data hnmne]
  rw [if_pos (stringMkData nm)]

/-- Lexing a serialized end tag. -/
theorem lexEndTag (nm : String) (hnm : nameOk nm = true) (stack : List String)
    (rest : List Char) :
    lex (nm :: stack) (.data []) (endTagChars nm ++ rest) =
      prepToks [Tok.elemClose nm] (lex stack (.data []) rest) := by
  show lex (nm :: stack) (.data []) (('<' :: '/' :: nm.data ++ ['>']) ++ rest) = _
  simp only [List.cons_append, List.append_assoc]
  rw [lexDataLt]
  have h := lexEndTagLt nm hnm stack rest
  simpa using h

/-- Escape-free text contains no `<`. -/
theorem textOkNoLt (s : String) (hs : textOk s = true) :
    s.data.all (fun c => !(c = '<')) = true := by
  simp only [textOk, Bool.and_eq_true, List.all_eq_true] at hs
  obtain ⟨_, hall⟩ := hs
  simp only [List.all_eq_true]
  intro c hcmem
  have h2 := hall c hcmem
  simp only [Bool.not_eq_true'] at h2 ⊢
  simp only [Bool.or_eq_false_iff] at h2
  exact h2.1

/-- Lexing a serialized text element `<nm>s</nm>`. -/
theorem lexTextElem (nm s : String) (hnm : nameOk nm = true) (hs : textOk s = true)
    (stack : List String) (rest : List Char) :
    lex stack (.data []) (textElemChars nm s ++ rest) =
      prepToks (textToks nm s) (lex stack (.data []) rest) := by
  show lex stack (.data []) ((startTagChars nm [] ++ s.data ++ endTagChars nm) ++ rest) = _
  simp only [List.append_assoc]
  rw [lexStartTag nm hnm [] rfl]
  have hne : s.data.isEmpty = false := by
    simp only [textOk, Bool.and_eq_true] at hs
    obtain ⟨hne2, _⟩ := hs
    cases hd : s.data with
    | nil => exfalso; rw [hd] at hne2; simp at hne2
    | cons c cs => rfl
  have haccum := lexDataAccum s.data (textOkNoLt s hs) [] (nm :: stack)
  rw [haccum]
  simp only [List.nil_append]
  show prepToks _ (lex (nm :: stack) (.data s.data) (('<' :: '/' :: nm.data ++ ['>']) ++ rest)) = _
  simp only [List.cons_append, List.append_assoc]
  rw [lexDataLtEmit (nm :: stack) s.data hne, stringMkData]
  rw [lexEndTagLt nm hnm stack]
  simp [prepToks, textToks]

/-- Composing `prepToks`. -/
theorem prepToksApp (a b : List Tok) (r : List Tok × Option XmlErr) :
    prepToks a (prepToks b r) = prepToks (a ++ b) r := by
  simp [prepToks]

/-- Lexing the concatenation of a list of serialized items, each of which
lexes to its token list and returns to the same state. -/
theorem lexJoin {α : Type} (f : α → List Char) (g : α → List Tok) (stack0 : List String)
    (l : List α)
    (H : ∀ x ∈ l, ∀ rest : List Char,
      lex stack0 (.data []) (f x ++ rest) = prepToks (g x) (lex stack0 (.data []) rest)) :
    ∀ rest : List Char,
    lex stack0 (.data []) (joinChars f l ++ rest) =
      prepToks (joinToks g l) (lex stack0 (.data []) rest) := by
  induction l with
  | nil => intro rest; simp [joinChars, joinToks, prepToks]
  | cons x xs ih =>
      intro rest
      show lex stack0 (.data []) ((f x ++ joinChars f xs) ++ rest) = _
      simp only [List.append_assoc]
      rw [H x (by simp)]
      rw [ih (fun y hy => H y (by simp [hy]))]
      rw [prepToksApp]
      rfl

/-- Lexing character data followed by the end tag of the enclosing element. -/
theorem lexChardataEnd (nm s : String) (hnm : nameOk nm = true) (hs : textOk s = true)
    (stack : List String) (rest : List Char) :
    lex (nm :: stack) (.data []) (s.data ++ (endTagChars nm ++ rest)) =
      prepToks [Tok.chardata s, Tok.elemClose nm] (lex stack (.data []) rest) := by
  have hne : s.data.isEmpty = false := by
    simp only [textOk, Bool.and_eq_true] at hs
    obtain ⟨hne2, _⟩ := hs
    cases hd : s.data with
    | nil => exfalso; rw [hd] at hne2; simp at hne2
    | cons c cs => rfl
  have haccum := lexDataAccum s.data (textOkNoLt s hs) [] (nm :: stack)
  rw [haccum]
  simp only [List.nil_append]
  show lex (nm :: stack) (.data s.data) (('<' :: '/' :: nm.data ++ ['>']) ++ rest) = _
  simp only [List.cons_append, List.append_assoc]
  rw [lexDataLtEmit (nm :: stack) s.data hne, stringMkData]
  simp only [List.nil_append]
  rw [lexEndTagLt nm hnm stack]
  rw [prepToksApp]
  rfl

/-- Lexing one serialized `<package>` element. -/
theorem lexPkg (p : PkgSrc) (hp : safePkgSrc p = true) (stack : List String) (rest : List Char) :
    lex stack (.data []) (mkPkgChars p ++ rest) =
      prepToks (pkgToks p) (lex stack (.data []) rest) := by
  simp only [safePkgSrc, Bool.and_eq_true] at hp
  obtain ⟨⟨⟨⟨⟨⟨⟨⟨⟨hptype, hname⟩, harch⟩, hepochSome⟩, hepoch⟩, hver⟩, hrel⟩, hctype⟩,
    hcval⟩, hsummary⟩ := hp
  have hat1 : attrsOk [("type", p.ptype)] = true := by
    simp [attrsOk, nameOk, hptype] <;> decide
  have hat2 : attrsOk [("epoch", p.epoch), ("ver", p.ver), ("rel", p.rel)] = true := by
    simp [attrsOk, nameOk, hepoch, hver, hrel] <;> decide
  have hat3 : attrsOk [("type", p.ctype)] = true := by
    simp [attrsOk, nameOk, hctype] <;> decide
  show lex stack (.data [])
    ((startTagChars "package" [("type", p.ptype)] ++
      textElemChars "name" p.name ++
      textElemChars "arch" p.arch ++
      selfTagChars "version" [("epoch", p.epoch), ("ver", p.ver), ("rel", p.rel)] ++
      startTagChars "checksum" [("type", p.ctype)] ++ p.cval.data ++ endTagChars "checksum" ++
      textElemChars "summary" p.summary ++
      endTagChars "package") ++ rest) = _
  simp only [List.append_assoc]
  rw [lexStartTag "package" (by decide) [("type", p.ptype)] hat1]
  rw [lexTextElem "name" p.name (by decide) hname]
  rw [lexTextElem "arch" p.arch (by decide) harch]
  rw [lexSelfTag "version" (by decide) [("epoch", p.epoch), ("ver", p.ver), ("rel", p.rel)] hat2]
  rw [lexStartTag "checksum" (by decide) [("type", p.ctype)] hat3]
  rw [lexChardataEnd "checksum" p.cval (by decide) hcval]
  rw [lexTextElem "summary" p.summary (by decide) hsummary]
  rw [lexEndTag "package" (by decide)]
  simp only [prepToksApp]
  show prepToks _ _ = _
  rw [show (pkgToks p : List Tok) =
    Tok.elemStart "package" [("type", p.ptype)] ::
      (textToks "name" p.name ++ (textToks "arch" p.arch ++
        ([Tok.elemStart "version" [("epoch", p.epoch), ("ver", p.ver), ("rel", p.rel)],
          Tok.elemClose "version"] ++
          ([Tok.elemStart "checksum" [("type", p.ctype)]] ++
            ([Tok.chardata p.cval, Tok.elemClose "checksum"] ++
              (textToks "summary" p.summary ++ [Tok.elemClose "package"])))))) from by
    simp [pkgToks, textToks]]
  simp [prepToks, textToks]

/-- Lexing a whole serialized catalog. -/
theorem lexCatalog (ps : List PkgSrc) (hps : ∀ p ∈ ps, safePkgSrc p = true) :
    lex [] (.data []) (mkCatalogChars ps) =
      (Tok.elemStart "metadata" [] :: (joinToks pkgToks ps ++ [Tok.elemClose "metadata"]),
        none) := by
  have h : ∀ rest : List Char,
      lex [] (.data []) (mkCatalogChars ps ++ rest) =
        prepToks (Tok.elemStart "metadata" [] ::
          (joinToks pkgToks ps ++ [Tok.elemClose "metadata"]))
          (lex [] (.data []) rest) := by
    intro rest
    show lex [] (.data [])
      ((startTagChars "metadata" [] ++ joinChars mkPkgChars ps ++ endTagChars "metadata") ++ rest) = _
    simp only [List.append_assoc]
    rw [lexStartTag "metadata" (by decide) [] rfl]
    rw [lexJoin mkPkgChars pkgToks ["metadata"] ps
      (fun p hp rest2 => lexPkg p (hps p hp) ["metadata"] rest2)]
    rw [lexEndTag "metadata" (by decide)]
    simp only [prepToksApp]
    simp [prepToks]
  have h2 := h []
  rw [List.append_nil] at h2
  rw [h2]
  simp [prepToks, lex]

/-! ## Package decode loop stepping lemmas -/

theorem pkgStepStart (term : Option XmlErr) (acc : List Package)
    (ats : List (String × String)) (ts : List Tok) :
    pkgLoop term (.scan acc) (Tok.elemStart "package" ats :: ts) =
      pkgLoop term (.inPkg acc (initPkg ats) [] "") ts := rfl

theorem pkgStepTextField (term : Option XmlErr) (acc : List Package) (pkg : Package)
    (txt s : String) (n : String) (ts : List Tok)
    (fld : String) (hf : fld = "name" ∨ fld = "arch" ∨ fld = "summary") :
    pkgLoop term (.inPkg acc pkg [] txt)
        (Tok.elemStart fld [] :: Tok.chardata s :: Tok.elemClose n :: ts) =
      pkgLoop term (.inPkg acc (pkgCommit pkg fld s) [] s) ts := by
  rcases hf with h | h | h <;> subst h <;> rfl

theorem pkgStepVersion (term : Option XmlErr) (acc : List Package) (pkg : Package)
    (txt : String) (ats : List (String × String)) (v : Version) (n : String) (ts : List Tok)
    (h : applyVersionAttrs pkg.version ats = Except.ok v) :
    pkgLoop term (.inPkg acc pkg [] txt)
        (Tok.elemStart "version" ats :: Tok.elemClose n :: ts) =
      pkgLoop term (.inPkg acc { pkg with version := v } [] txt) ts := by
  simp only [pkgLoop, h]
  rfl

theorem pkgStepChecksum (term : Option XmlErr) (acc : List Package) (pkg : Package)
    (txt s : String) (ats : List (String × String)) (n : String) (ts : List Tok) :
    pkgLoop term (.inPkg acc pkg [] txt)
        (Tok.elemStart "checksum" ats :: Tok.chardata s :: Tok.elemClose n :: ts) =
      pkgLoop term
        (.inPkg acc
          { pkg with checksum :=
            { value := s, type := attrLast ats "type" pkg.checksum.type } } [] s) ts := rfl

theorem pkgStepFinish (term : Option XmlErr) (acc : List Package) (pkg : Package)
    (txt : String) (n : String) (ts : List Tok) :
    pkgLoop term (.inPkg acc pkg [] txt) (Tok.elemClose n :: ts) =
      pkgLoop term (.scan (acc ++ if pkg.type = "rpm" then [pkg] else [])) ts := by
  by_cases h : pkg.type = "rpm"
  · simp [pkgLoop, h]
  · simp [pkgLoop, h]

theorem pkgStepSkipScan (term : Option XmlErr) (acc : List Package) (t : Tok) (ts : List Tok)
    (ht : ∀ n ats, t = Tok.elemStart n ats → n ≠ "package") :
    pkgLoop term (.scan acc) (t :: ts) = pkgLoop term (.scan acc) ts := by
  cases t with
  | elemStart n ats =>
      have := ht n ats rfl
      simp [pkgLoop, this]
  | elemClose n => rfl
  | chardata s => rfl
  | procInst => rfl
  | comment => rfl
  | directive => rfl

theorem applyVersionAttrsStd (ver : Version) (e vr rl : String) (n : Int)
    (hn : parseGoInt32 e = some n) :
    applyVersionAttrs ver [("epoch", e), ("ver", vr), ("rel", rl)] =
      Except.ok { version := vr, release := rl, epoch := n } := by
  simp [applyVersionAttrs, List.foldlM, hn]
  rfl

/-- Processing the token stream of one serialized package: the package is
decoded and appended exactly when its type attribute is `"rpm"`. -/
theorem pkgLoopStep (p : PkgSrc) (hp : safePkgSrc p = true) (term : Option XmlErr)
    (acc : List Package) (ts : List Tok) :
    pkgLoop term (.scan acc) (pkgToks p ++ ts) =
      pkgLoop term (.scan (acc ++ if p.ptype = "rpm" then [toPackage p] else [])) ts := by
  simp only [safePkgSrc, Bool.and_eq_true] at hp
  obtain ⟨⟨⟨⟨⟨⟨⟨⟨⟨hptype, hname⟩, harch⟩, hepochSome⟩, hepoch⟩, hver⟩, hrel⟩, hctype⟩,
    hcval⟩, hsummary⟩ := hp
  obtain ⟨n, hn⟩ : ∃ n, parseGoInt32 p.epoch = some n := by
    cases h : parseGoInt32 p.epoch with
    | none => exfalso; rw [h] at hepochSome; simp at hepochSome
    | some n => exact ⟨n, rfl⟩
  show pkgLoop term (.scan acc)
    ((Tok.elemStart "package" [("type", p.ptype)] ::
      (textToks "name" p.name ++ textToks "arch" p.arch ++
        [Tok.elemStart "version" [("epoch", p.epoch), ("ver", p.ver), ("rel", p.rel)],
          Tok.elemClose "version",
          Tok.elemStart "checksum" [("type", p.ctype)], Tok.chardata p.cval,
          Tok.elemClose "checksum"] ++
        textToks "summary" p.summary ++ [Tok.elemClose "package"])) ++ ts) = _
  simp only [textToks, List.cons_append, List.append_assoc, List.nil_append,
    List.singleton_append]
  rw [pkgStepStart]
  rw [pkgStepTextField term _ _ _ _ _ _ "name" (by simp)]
  rw [pkgStepTextField term _ _ _ _ _ _ "arch" (by simp)]
  rw [pkgStepVersion term _ _ _ _ _ _ _
    (applyVersionAttrsStd _ p.epoch p.ver p.rel n hn)]
  rw [pkgStepChecksum]
  rw [pkgStepTextField term _ _ _ _ _ _ "summary" (by simp)]
  rw [pkgStepFinish]
  simp only [pkgCommit, initPkg, attrLast, List.foldl, toPackage, hn]
  simp [hn]

/-- Processing the token streams of a list of serialized packages. -/
theorem pkgLoopJoin (ps : List PkgSrc) (hps : ∀ p ∈ ps, safePkgSrc p = true)
    (term : Option XmlErr) :
    ∀ (acc : List Package) (ts : List Tok),
    pkgLoop term (.scan acc) (joinToks pkgToks ps ++ ts) =
      pkgLoop term
        (.scan (acc ++ (ps.filter (fun p => p.ptype = "rpm")).map toPackage)) ts := by
  induction ps with
  | nil => intro acc ts; simp [joinToks]
  | cons p ps ih =>
      intro acc ts
      show pkgLoop term (.scan acc) ((pkgToks p ++ joinToks pkgToks ps) ++ ts) = _
      rw [List.append_assoc]
      rw [pkgLoopStep p (hps p (by simp)) term acc]
      rw [ih (fun q hq => hps q (by simp [hq])) _ ts]
      by_cases hp : p.ptype = "rpm"
      · simp [hp, List.filter_cons, List.append_assoc]
      · simp [hp, List.filter_cons]

/-- Decoding the canonical serialization of a catalog through the
post-decompression pipeline: every rpm-typed package is returned, every
other package is dropped, and the outcome carries no error. -/
theorem parseCatalogXML (ps : List PkgSrc) (hps : ∀ p ∈ ps, safePkgSrc p = true)
    (maxSize : Nat) (hmax : (mkCatalogChars ps).length ≤ maxSize) :
    parsePackagesXML maxSize (mkCatalogChars ps) =
      ((ps.filter (fun p => p.ptype = "rpm")).map toPackage, none) := by
  show (let r := lex [] (.data []) ((mkCatalogChars ps).take maxSize)
    pkgLoop r.2 (.scan []) r.1) = _
  rw [List.take_of_length_le hmax]
  rw [lexCatalog ps hps]
  show pkgLoop none (.scan [])
    (Tok.elemStart "metadata" [] :: (joinToks pkgToks ps ++ [Tok.elemClose "metadata"])) = _
  rw [pkgStepSkipScan none [] _ _ (by intro n ats h; cases h; decide)]
  rw [pkgLoopJoin ps hps none [] [Tok.elemClose "metadata"]]
  rw [pkgStepSkipScan none _ _ _ (by intro n ats h; cases h)]
  simp [pkgLoop]

/-- Whenever the token stream's terminal outcome is an error, the package
decode loop reports an error: either the wrapped token error at the end of
the stream, or an earlier `DecodeElement` failure. -/
theorem pkgLoopTermSome (term : Option XmlErr) (hterm : term.isSome = true) :
    ∀ (toks : List Tok) (st : PMode), (pkgLoop term st toks).2.isSome = true := by
  intro toks
  induction toks with
  | nil =>
      intro st
      cases st with
      | scan acc =>
          cases term with
          | none => simp at hterm
          | some e => simp [pkgLoop]
      | inPkg acc pkg path txt => simp [pkgLoop]
  | cons t ts ih =>
      intro st
      cases st with
      | scan acc =>
          cases t with
          | elemStart n ats =>
              by_cases hn : n = "package"
              · simp only [pkgLoop, if_pos hn]; exact ih _
              · simp only [pkgLoop, if_neg hn]; exact ih _
          | elemClose n => simp only [pkgLoop]; exact ih _
          | chardata s => simp only [pkgLoop]; exact ih _
          | procInst => simp only [pkgLoop]; exact ih _
          | comment => simp only [pkgLoop]; exact ih _
          | directive => simp only [pkgLoop]; exact ih _
      | inPkg acc pkg path txt =>
          cases t with
          | elemStart n ats =>
              by_cases h1 : path = [] ∧ n = "version"
              · simp only [pkgLoop, if_pos h1]
                cases applyVersionAttrs pkg.version ats with
                | error e => simp
                | ok v => exact ih _
              · simp only [pkgLoop, if_neg h1]; exact ih _
          | elemClose n =>
              cases path with
              | nil =>
                  by_cases hr : pkg.type = "rpm"
                  · simp only [pkgLoop, if_pos hr]; exact ih _
                  · simp only [pkgLoop, if_neg hr]; exact ih _
              | cons f rest => simp only [pkgLoop]; exact ih _
          | chardata s =>
              by_cases hc : pkgCollectPath path = true
              · simp only [pkgLoop, if_pos hc]; exact ih _
              · simp only [pkgLoop, if_neg hc]; exact ih _
          | procInst => simp only [pkgLoop]; exact ih _
          | comment => simp only [pkgLoop]; exact ih _
          | directive => simp only [pkgLoop]; exact ih _

/-- A character stream with no markup lexes to at most one chardata token and
a clean EOF at top level. -/
theorem lexNoMarkup (l : List Char) (h : l.all (fun c => !(c = '<')) = true) :
    lex [] (.data []) l =
      (if l.isEmpty then [] else [Tok.chardata (String.mk l)], none) := by
  have h2 := lexDataAccum l h [] [] []
  rw [List.append_nil] at h2
  rw [h2]
  cases l with
  | nil => rfl
  | cons c cs => rfl

/-! ## Claim C5 -/

/-- C5: for every well-formed catalog (canonically serialized from sources
`ps`) delivered through a supported compression format, the decode returns
exactly the rpm-typed packages, in order; in particular a catalog with
exactly 2 rpm-typed package elements and any number of other-typed elements
yields exactly 2 records. -/
theorem c5_rpm_filter
    (D : FileKind → List Nat → Except String (List Char)) (body : List Nat) (maxSize : Nat)
    (ps : List PkgSrc)
    (hlen : 20 ≤ body.length)
    (hk : sniffKind (body.take 20) ≠ FileKind.unknown)
    (hD : D (sniffKind (body.take 20)) body = Except.ok (mkCatalogChars ps))
    (hmax : (mkCatalogChars ps).length ≤ maxSize)
    (hps : ∀ p ∈ ps, safePkgSrc p = true) :
    ParseCompressedXMLData D body maxSize =
      ((ps.filter (fun p => p.ptype = "rpm")).map toPackage, none) ∧
    ((ps.filter (fun p => p.ptype = "rpm")).length = 2 →
      (ParseCompressedXMLData D body maxSize).1.length = 2) := by
  have hmain : ParseCompressedXMLData D body maxSize =
      ((ps.filter (fun p => p.ptype = "rpm")).map toPackage, none) := by
    unfold ParseCompressedXMLData
    rw [if_neg (by omega)]
    cases hsk : sniffKind (body.take 20) with
    | unknown => exact absurd hsk hk
    | gz =>
        rw [hsk] at hD
        show (match D FileKind.gz body with
          | Except.error e => ([], some (GoErr.unzipErr e))
          | Except.ok content => parsePackagesXML maxSize content) = _
        rw [hD]
        exact parseCatalogXML ps hps maxSize hmax
    | zstd =>
        rw [hsk] at hD
        show (match D FileKind.zstd body with
          | Except.error e => ([], some (GoErr.unzipErr e))
          | Except.ok content => parsePackagesXML maxSize content) = _
        rw [hD]
        exact parseCatalogXML ps hps maxSize hmax
    | xz =>
        rw [hsk] at hD
        show (match D FileKind.xz body with
          | Except.error e => ([], some (GoErr.unzipErr e))
          | Except.ok content => parsePackagesXML maxSize content) = _
        rw [hD]
        exact parseCatalogXML ps hps maxSize hmax
  refine ⟨hmain, fun h2 => ?_⟩
  rw [hmain]
  simpa using h2

set_option maxRecDepth 8000 in
theorem c5_witness :
    ParseCompressedXMLData (fun _ _ => Except.ok (mkCatalogChars [wPkg1, wPkg2, wPkg3]))
        gzHeaderBytes DefaultMaxXmlSize =
      (([wPkg1, wPkg2, wPkg3].filter (fun p => p.ptype = "rpm")).map toPackage, none) ∧
    (([wPkg1, wPkg2, wPkg3].filter (fun p => p.ptype = "rpm")).length = 2 →
      (ParseCompressedXMLData (fun _ _ => Except.ok (mkCatalogChars [wPkg1, wPkg2, wPkg3]))
          gzHeaderBytes DefaultMaxXmlSize).1.length = 2) :=
  c5_rpm_filter _ gzHeaderBytes DefaultMaxXmlSize [wPkg1, wPkg2, wPkg3]
    (by decide) (by decide) rfl (by decide) (by decide)

/-! ## Claim C1 -/

/-- C1 amended, general facts: (1) when the byte ceiling truncates the
decompressed stream before any markup, the result is zero records and no
error (the 10-byte example); (2) when the truncated prefix ends in a
tokenizer error (in particular inside an open element), the call returns a
non-nil error. -/
theorem c1_truncation
    :
    (∀ (D : FileKind → List Nat → Except String (List Char)) (body : List Nat)
        (maxSize : Nat) (content : List Char),
      20 ≤ body.length →
      sniffKind (body.take 20) ≠ FileKind.unknown →
      D (sniffKind (body.take 20)) body = Except.ok content →
      maxSize < content.length →
      (content.take maxSize).all (fun c => !(c = '<')) = true →
      ParseCompressedXMLData D body maxSize = ([], none)) ∧
    (∀ (D : FileKind → List Nat → Except String (List Char)) (body : List Nat)
        (maxSize : Nat) (content : List Char) (toks : List Tok) (e : XmlErr),
      20 ≤ body.length →
      sniffKind (body.take 20) ≠ FileKind.unknown →
      D (sniffKind (body.take 20)) body = Except.ok content →
      lex [] (.data []) (content.take maxSize) = (toks, some e) →
      (ParseCompressedXMLData D body maxSize).2.isSome = true) := by
  constructor
  · intro D body maxSize content hlen hk hD hcut hsafe
    unfold ParseCompressedXMLData
    rw [if_neg (by omega)]
    have hrest : parsePackagesXML maxSize content = ([], none) := by
      unfold parsePackagesXML
      rw [lexNoMarkup _ hsafe]
      by_cases he : (content.take maxSize).isEmpty
      · simp [he, pkgLoop]
      · simp [he, pkgLoop]
    cases hsk : sniffKind (body.take 20) with
    | unknown => exact absurd hsk hk
    | gz =>
        rw [hsk] at hD
        show (match D FileKind.gz body with
          | Except.error e => ([], some (GoErr.unzipErr e))
          | Except.ok content => parsePackagesXML maxSize content) = _
        rw [hD]; exact hrest
    | zstd =>
        rw [hsk] at hD
        show (match D FileKind.zstd body with
          | Except.error e => ([], some (GoErr.unzipErr e))
          | Except.ok content => parsePackagesXML maxSize content) = _
        rw [hD]; exact hrest
    | xz =>
        rw [hsk] at hD
        show (match D FileKind.xz body with
          | Except.error e => ([], some (GoErr.unzipErr e))
          | Except.ok content => parsePackagesXML maxSize content) = _
        rw [hD]; exact hrest
  · intro D body maxSize content toks e hlen hk hD hlex
    unfold ParseCompressedXMLData
    rw [if_neg (by omega)]
    have hrest : (parsePackagesXML maxSize content).2.isSome = true := by
      unfold parsePackagesXML
      rw [hlex]
      exact pkgLoopTermSome (some e) rfl toks (.scan [])
    cases hsk : sniffKind (body.take 20) with
    | unknown => exact absurd hsk hk
    | gz =>
        rw [hsk] at hD
        show ((match D FileKind.gz body with
          | Except.error e => (([] : List Package), some (GoErr.unzipErr e))
          | Except.ok content => parsePackagesXML maxSize content)).2.isSome = true
        rw [hD]; exact hrest
    | zstd =>
        rw [hsk] at hD
        show ((match D FileKind.zstd body with
          | Except.error e => (([] : List Package), some (GoErr.unzipErr e))
          | Except.ok content => parsePackagesXML maxSize content)).2.isSome = true
        rw [hD]; exact hrest
    | xz =>
        rw [hsk] at hD
        show ((match D FileKind.xz body with
          | Except.error e => (([] : List Package), some (GoErr.unzipErr e))
          | Except.ok content => parsePackagesXML maxSize content)).2.isSome = true
        rw [hD]; exact hrest

/-- C1 as stated is false: this decompressed catalog is longer than the
15-byte ceiling, yet the call returns a non-nil decode error (the cutoff
lands inside an open element, so Go's `Token` reports `unexpected EOF`)
rather than the claimed nil error. -/
theorem c1_counterexample :
    15 < c1TruncContent.length ∧
    ParseCompressedXMLData (fun _ _ => Except.ok c1TruncContent) gzHeaderBytes 15 =
      ([], some (GoErr.decodeTokenErr XmlErr.unexpEOF)) := by
  exact ⟨by decide, rfl⟩

theorem c1_witness :
    (ParseCompressedXMLData (fun _ _ => Except.ok c1NoMarkupContent) gzHeaderBytes 10 =
      ([], none)) ∧
    (ParseCompressedXMLData (fun _ _ => Except.ok c1TruncContent) gzHeaderBytes 15).2.isSome
      = true :=
  ⟨c1_truncation.1 _ gzHeaderBytes 10 c1NoMarkupContent (by decide) (by decide) rfl
      (by decide) (by decide),
    c1_truncation.2 _ gzHeaderBytes 15 c1TruncContent
      [Tok.elemStart "metadata" []] XmlErr.unexpEOF (by decide) (by decide) rfl (by decide)⟩

/-! ## Claim C2 -/

theorem lexBadTail (rest : List Char) :
    lex ["metadata"] (.data []) (c2BadTailChars ++ rest) =
      ([], some (XmlErr.badTok "mismatched end element")) := rfl

theorem lexBadPkg :
    lex ["metadata"] (.data []) c2BadPkgChars =
      ([Tok.elemStart "package" [("type", "rpm")],
        Tok.elemStart "version" [("epoch", "x")], Tok.elemClose "version",
        Tok.elemClose "package"], some XmlErr.unexpEOF) := rfl

theorem pkgBadVersionStep (term : Option XmlErr) (acc : List Package) (pkg : Package)
    (txt : String) (ts : List Tok) :
    pkgLoop term (.inPkg acc pkg [] txt) (Tok.elemStart "version" [("epoch", "x")] :: ts) =
      (acc, some (GoErr.decodeElementErr (XmlErr.badTok "strconv.ParseInt: invalid syntax"))) :=
  rfl

/-- Lexing a catalog of good packages followed by a mismatched end tag. -/
theorem lexTokenErrCatalog (ps : List PkgSrc) (hps : ∀ p ∈ ps, safePkgSrc p = true) :
    lex [] (.data []) (mkTokenErrCatalogChars ps) =
      (Tok.elemStart "metadata" [] :: joinToks pkgToks ps,
        some (XmlErr.badTok "mismatched end element")) := by
  show lex [] (.data [])
    ((startTagChars "metadata" [] ++ joinChars mkPkgChars ps ++ c2BadTailChars)) = _
  simp only [List.append_assoc]
  rw [lexStartTag "metadata" (by decide) [] rfl]
  rw [lexJoin mkPkgChars pkgToks ["metadata"] ps
    (fun p hp rest2 => lexPkg p (hps p hp) ["metadata"] rest2)]
  rw [show (c2BadTailChars : List Char) = c2BadTailChars ++ [] from (List.append_nil _).symm,
    lexBadTail]
  simp [prepToks]

/-- Lexing a catalog of good packages followed by a structurally bad package
element (the document is never closed, so the terminal outcome is the
`unexpected EOF` error, but the loop fails earlier on `DecodeElement`). -/
theorem lexElemErrCatalog (ps : List PkgSrc) (hps : ∀ p ∈ ps, safePkgSrc p = true) :
    lex [] (.data []) (mkElemErrCatalogChars ps) =
      (Tok.elemStart "metadata" [] :: (joinToks pkgToks ps ++
        [Tok.elemStart "package" [("type", "rpm")],
          Tok.elemStart "version" [("epoch", "x")], Tok.elemClose "version",
          Tok.elemClose "package"]),
        some XmlErr.unexpEOF) := by
  show lex [] (.data [])
    ((startTagChars "metadata" [] ++ joinChars mkPkgChars ps ++ c2BadPkgChars)) = _
  simp only [List.append_assoc]
  rw [lexStartTag "metadata" (by decide) [] rfl]
  rw [lexJoin mkPkgChars pkgToks ["metadata"] ps
    (fun p hp rest2 => lexPkg p (hps p hp) ["metadata"] rest2)]
  rw [lexBadPkg]
  simp [prepToks]

/-- C2 amended: a failing `DecodeElement` on a package element returns the
records accumulated before it together with the error, but a failing
`Token` read returns an empty slice together with the error, discarding
every record already parsed. -/
theorem c2_partial_results
    :
    (∀ (ps : List PkgSrc) (maxSize : Nat),
      (∀ p ∈ ps, safePkgSrc p = true) →
      (mkElemErrCatalogChars ps).length ≤ maxSize →
      parsePackagesXML maxSize (mkElemErrCatalogChars ps) =
        ((ps.filter (fun p => p.ptype = "rpm")).map toPackage,
          some (GoErr.decodeElementErr (XmlErr.badTok "strconv.ParseInt: invalid syntax")))) ∧
    (∀ (ps : List PkgSrc) (maxSize : Nat),
      (∀ p ∈ ps, safePkgSrc p = true) →
      (mkTokenErrCatalogChars ps).length ≤ maxSize →
      parsePackagesXML maxSize (mkTokenErrCatalogChars ps) =
        ([], some (GoErr.decodeTokenErr (XmlErr.badTok "mismatched end element")))) := by
  constructor
  · intro ps maxSize hps hmax
    unfold parsePackagesXML
    rw [List.take_of_length_le hmax]
    rw [lexElemErrCatalog ps hps]
    show pkgLoop (some XmlErr.unexpEOF) (.scan []) (_ :: _) = _
    rw [pkgStepSkipScan _ [] _ _ (by intro n ats h; cases h; decide)]
    rw [pkgLoopJoin ps hps _ [] _]
    rw [pkgStepStart]
    rw [pkgBadVersionStep]
    simp
  · intro ps maxSize hps hmax
    unfold parsePackagesXML
    rw [List.take_of_length_le hmax]
    rw [lexTokenErrCatalog ps hps]
    show pkgLoop (some (XmlErr.badTok "mismatched end element")) (.scan []) (_ :: _) = _
    rw [pkgStepSkipScan _ [] _ _ (by intro n ats h; cases h; decide)]
    rw [show (joinToks pkgToks ps : List Tok) = joinToks pkgToks ps ++ [] from
      (List.append_nil _).symm]
    rw [pkgLoopJoin ps hps _ []]
    rfl

/-- C2 as stated is false: here the stream contains one fully decodable
rpm-typed package (parsing the same prefix without the corrupt tail yields
exactly that record), yet on the token-level failure the call returns an
empty slice with the error instead of the accumulated record. -/
theorem c2_counterexample :
    parsePackagesXML 100000 (mkCatalogChars [wPkg1]) = ([toPackage wPkg1], none) ∧
    parsePackagesXML 100000 (mkTokenErrCatalogChars [wPkg1]) =
      ([], some (GoErr.decodeTokenErr (XmlErr.badTok "mismatched end element"))) := by
  constructor
  · rfl
  · rfl

set_option maxRecDepth 8000 in
theorem c2_witness :
    parsePackagesXML 100000 (mkElemErrCatalogChars [wPkg1, wPkg2]) =
      (([wPkg1, wPkg2].filter (fun p => p.ptype = "rpm")).map toPackage,
        some (GoErr.decodeElementErr (XmlErr.badTok "strconv.ParseInt: invalid syntax"))) ∧
    parsePackagesXML 100000 (mkTokenErrCatalogChars [wPkg1, wPkg2]) =
      ([], some (GoErr.decodeTokenErr (XmlErr.badTok "mismatched end element"))) :=
  ⟨c2_partial_results.1 [wPkg1, wPkg2] 100000 (by decide) (by decide),
    c2_partial_results.2 [wPkg1, wPkg2] 100000 (by decide) (by decide)⟩

/-! ## Claim C4 -/

/-- C4 amended: `ParseCompressedXMLData` rejects any stream whose 20-byte
prefix matches none of the gzip, xz, zstd magic numbers with the
"invalid file type" error; the uncompressed-passthrough classification
exists only in `ExtractIfCompressed` (used for comps and module
streams). -/
theorem c4_uncompressed_rejected
    :
    (∀ (D : FileKind → List Nat → Except String (List Char)) (body : List Nat)
        (maxSize : Nat),
      20 ≤ body.length →
      sniffKind (body.take 20) = FileKind.unknown →
      ParseCompressedXMLData D body maxSize = ([], some GoErr.invalidFileType)) ∧
    (∀ (P : List Nat → Except String (List Char)) (bytes : List Nat),
      20 ≤ bytes.length →
      sniffKind (bytes.take 20) = FileKind.unknown →
      ExtractIfCompressed P bytes = Except.ok (Extracted.passthrough bytes)) := by
  constructor
  · intro D body maxSize hlen hsk
    unfold ParseCompressedXMLData
    rw [if_neg (by omega)]
    simp only [hsk]
  · intro P bytes hlen hsk
    unfold ExtractIfCompressed
    rw [if_neg (by omega)]
    simp only [hsk]

set_option maxRecDepth 100000 in
/-- C4 as stated is false: a valid package catalog presented uncompressed
(its prefix matches no compression magic) makes `ParseCompressedXMLData`
return the "invalid file type" error and no records, even though the same
bytes decode to one rpm record when handed directly to the streaming
decoder. -/
theorem c4_counterexample :
    ParseCompressedXMLData (fun _ _ => Except.ok []) c4UncompressedBytes DefaultMaxXmlSize =
      ([], some GoErr.invalidFileType) ∧
    parsePackagesXML DefaultMaxXmlSize (mkCatalogChars [wPkg1]) =
      ([toPackage wPkg1], none) :=
  ⟨rfl, rfl⟩

set_option maxRecDepth 100000 in
theorem c4_witness :
    ParseCompressedXMLData (fun _ _ => Except.ok []) c4UncompressedBytes 100 =
      ([], some GoErr.invalidFileType) ∧
    ExtractIfCompressed (fun _ => Except.error "never") c4UncompressedBytes =
      Except.ok (Extracted.passthrough c4UncompressedBytes) :=
  ⟨c4_uncompressed_rejected.1 _ c4UncompressedBytes 100 (by decide) (by decide),
    c4_uncompressed_rejected.2 _ c4UncompressedBytes (by decide) (by decide)⟩

/-! ## Claim C3 -/

/-- C3 is right about the intent but the code is wrong: for every response in
the 200-299 range, `FetchGPGKey` returns the body as the key with a nil
error no matter what the armored-key-ring parse says, because line 31
tests `err` (necessarily nil there) instead of `openpgpErr`; the
`//Bad key` rejection branch is unreachable. -/
theorem c3_dead_keyring_check (parseArmoredKeyRing : String → Except String Unit)
    (statusCode : Int) (body : String)
    (h200 : 200 ≤ statusCode) (h299 : statusCode ≤ 299) :
    FetchGPGKey parseArmoredKeyRing statusCode body = (some body, statusCode, none) := by
  unfold FetchGPGKey
  rw [if_neg (by simp; omega)]
  rw [if_neg (by simp)]

theorem c3_witness :
    FetchGPGKey (fun _ => Except.error "openpgp: invalid argument: no armored data found")
        200 "this is not a gpg key" = (some "this is not a gpg key", 200, none) :=
  c3_dead_keyring_check _ 200 _ (by norm_num) (by norm_num)

/-! ## Claim C8 -/

/-- C8 is right about the invariant but the code is wrong: a structurally
valid comps document whose group has zero `<name>` entries decodes without
error, and the localisation stripping then panics on the out-of-bounds
slice `item.Name[:1]` instead of surfacing a decode error; with at least
one name and description the same document succeeds. -/
theorem c8_zero_name_panics :
    ParseCompsXML c8ZeroNameComps = CompsResult.panicked ∧
    ParseCompsXML c8GoodComps =
      CompsResult.ok
        [{ id := "g", name := ["N"], description := ["D"], packageList := [] }] [] none :=
  ⟨rfl, rfl⟩

/-! ## Claim C10 -/

/-- C10: whenever `ParseRepomdXML` succeeds, the `RepomdString` carried by the
result is exactly the input byte sequence. -/
theorem c10_repomd_roundtrip (unmarshal : List Char → Except String Repomd)
    (byteValue : List Char) (r : Repomd)
    (h : ParseRepomdXML unmarshal byteValue = Except.ok r) :
    r.repomdString = some (String.mk byteValue) := by
  unfold ParseRepomdXML at h
  cases hu : unmarshal byteValue with
  | error e => rw [hu] at h; exact absurd h (by simp)
  | ok result =>
      rw [hu] at h
      have h2 : ({ result with repomdString := some (String.mk byteValue) } : Repomd) = r := by
        simpa using h
      rw [← h2]

theorem c10_witness :
    (ParseRepomdXML (fun _ => Except.ok { data := [], revision := "", repomdString := none })
        ("<repomd/>").data = Except.ok
          { data := [], revision := "", repomdString := some "<repomd/>" }) ∧
    ({ data := [], revision := "", repomdString := some "<repomd/>" } : Repomd).repomdString =
      some (String.mk ("<repomd/>").data) :=
  ⟨rfl,
    c10_repomd_roundtrip (fun _ => Except.ok { data := [], revision := "", repomdString := none })
      ("<repomd/>").data _ rfl⟩

/-! ## Claim C9 -/

/-- The overwrite loop keeps the href of the last matching entry. -/
theorem foldlLastHref (t : String) (ds : List Data) :
    ∀ acc : String,
    ds.foldl (fun acc d => if d.type = t then d.location.href else acc) acc =
      ((ds.filter (fun d => d.type = t)).map (fun d => d.location.href)).getLastD acc := by
  induction ds with
  | nil => intro acc; simp
  | cons d ds ih =>
      intro acc
      by_cases h : d.type = t
      · rw [List.foldl_cons, if_pos h, ih (d.location.href)]
        have hf : List.filter (fun d => decide (d.type = t)) (d :: ds) =
            d :: List.filter (fun d => decide (d.type = t)) ds := by
          simp [List.filter_cons, h]
        rw [hf, List.map_cons, List.getLastD_cons]
      · rw [List.foldl_cons, if_neg h, ih acc]
        have hf : List.filter (fun d => decide (d.type = t)) (d :: ds) =
            List.filter (fun d => decide (d.type = t)) ds := by
          simp [List.filter_cons, h]
        rw [hf]

/-- C9: with duplicate entries of the same type in the repomd index, both
`getPrimaryURL`'s and `getCompsURL`'s selection loops resolve the href of
the last entry in document order. -/
theorem c9_last_href_wins (repomd : Repomd) (dp dg : Data)
    (hp2 : 2 ≤ (repomd.data.filter (fun d => d.type = "primary")).length)
    (hpl : (repomd.data.filter (fun d => d.type = "primary")).getLast? = some dp)
    (hph : dp.location.href ≠ "")
    (hg2 : 2 ≤ (repomd.data.filter (fun d => d.type = "group")).length)
    (hgl : (repomd.data.filter (fun d => d.type = "group")).getLast? = some dg)
    (hgh : dg.location.href ≠ "") :
    getPrimaryLocation repomd = Except.ok dp.location.href ∧
    getCompsLocation repomd = Except.ok dg.location.href := by
  constructor
  · unfold getPrimaryLocation
    rw [foldlLastHref "primary" repomd.data ""]
    have hm : ((repomd.data.filter (fun d => d.type = "primary")).map
        (fun d => d.location.href)).getLastD "" = dp.location.href := by
      rw [List.getLastD_eq_getLast?, List.getLast?_map, hpl]
      rfl
    rw [hm]
    simp [hph]
  · unfold getCompsLocation
    rw [foldlLastHref "group" repomd.data ""]
    have hm : ((repomd.data.filter (fun d => d.type = "group")).map
        (fun d => d.location.href)).getLastD "" = dg.location.href := by
      rw [List.getLastD_eq_getLast?, List.getLast?_map, hgl]
      rfl
    rw [hm]
    simp [hgh]

theorem c9_witness :
    getPrimaryLocation wRepomdDup = Except.ok "repodata/last-primary.xml.gz" ∧
    getCompsLocation wRepomdDup = Except.ok "repodata/last-comps.xml" :=
  c9_last_href_wins wRepomdDup
    { type := "primary", location := { href := "repodata/last-primary.xml.gz" } }
    { type := "group", location := { href := "repodata/last-comps.xml" } }
    (by decide) (by decide) (by decide) (by decide) (by decide) (by decide)

/-! ## Claim C6 -/

/-- Accumulating form of the modulemd loop over a stream of successfully
split documents. -/
theorem parseModuleMDsGoOk (msDecode : YDoc → Except String ModuleMD) (docs : List YDoc)
    (hdec : ∀ d ∈ docs, isModulemdDoc d = true → (msDecode d).isOk = true) :
    ∀ acc : List ModuleMD,
    parseModuleMDsGo msDecode acc (docs.map Except.ok) =
      Except.ok (acc ++ docs.filterMap
        (fun d => if isModulemdDoc d then (msDecode d).toOption else none)) := by
  induction docs with
  | nil => intro acc; simp [parseModuleMDsGo]
  | cons d ds ih =>
      intro acc
      by_cases hd : isModulemdDoc d = true
      · have hok := hdec d (by simp) hd
        cases hm : msDecode d with
        | error e => rw [hm] at hok; simp [Except.isOk, Except.toBool] at hok
        | ok m =>
            simp only [List.map_cons, parseModuleMDsGo, if_pos hd, hm]
            rw [ih (fun x hx => hdec x (by simp [hx])) (acc ++ [m])]
            simp [List.filterMap_cons, hd, hm, Except.toOption]
      · simp only [List.map_cons, parseModuleMDsGo, if_neg hd]
        rw [ih (fun x hx => hdec x (by simp [hx])) acc]
        simp [List.filterMap_cons, hd]

/-- C6: a multi-document stream whose documents all split successfully decodes
to exactly the modulemd-tagged documents, in stream order; every other
document kind is skipped and the call returns no error. -/
theorem c6_modulemd_filter (msDecode : YDoc → Except String ModuleMD) (docs : List YDoc)
    (hdec : ∀ d ∈ docs, isModulemdDoc d = true → (msDecode d).isOk = true) :
    parseModuleMDs msDecode (docs.map Except.ok) =
      Except.ok (docs.filterMap
        (fun d => if isModulemdDoc d then (msDecode d).toOption else none)) ∧
    (docs.filterMap
        (fun d => if isModulemdDoc d then (msDecode d).toOption else none)).length =
      (docs.filter (fun d => isModulemdDoc d)).length := by
  constructor
  · unfold parseModuleMDs
    have h := parseModuleMDsGoOk msDecode docs hdec []
    simpa using h
  · induction docs with
    | nil => simp
    | cons d ds ih =>
        by_cases hd : isModulemdDoc d = true
        · have hok := hdec d (by simp) hd
          cases hm : msDecode d with
          | error e => rw [hm] at hok; simp [Except.isOk, Except.toBool] at hok
          | ok m =>
              have h3 := ih (fun x hx h2 => hdec x (by simp [hx]) h2)
              have hf : (if isModulemdDoc d = true then (msDecode d).toOption else none) =
                  some m := by
                rw [if_pos hd, hm]; rfl
              rw [List.filterMap_cons, List.filter_cons, hf, if_pos hd]
              simp [h3]
        · have h3 := ih (fun x hx h2 => hdec x (by simp [hx]) h2)
          have hf : (if isModulemdDoc d = true then (msDecode d).toOption else none) =
              none := by
            rw [if_neg hd]
          rw [List.filterMap_cons, List.filter_cons, hf, if_neg hd]
          simpa using h3

theorem c6_witness :
    parseModuleMDs (fun _ => Except.ok wModuleMD)
        ([wDocModulemd, wDocDefaults, wDocObsoletes, wDocModulemd].map Except.ok) =
      Except.ok [wModuleMD, wModuleMD] := by
  have h := (c6_modulemd_filter (fun _ => Except.ok wModuleMD)
    [wDocModulemd, wDocDefaults, wDocObsoletes, wDocModulemd]
    (fun d _ _ => rfl)).1
  rw [h]
  rfl

/-! ## Claim C7: comps decode loop stepping lemmas -/

theorem compsStepStartGroup (term : Option XmlErr) (gs : List PackageGroup)
    (es : List Environment) (ats : List (String × String)) (ts : List Tok) :
    compsLoop term (.scan gs es) (Tok.elemStart "group" ats :: ts) =
      compsLoop term (.inItem true gs es "" [] [] [] [] "") ts := rfl

theorem compsStepStartEnv (term : Option XmlErr) (gs : List PackageGroup)
    (es : List Environment) (ats : List (String × String)) (ts : List Tok) :
    compsLoop term (.scan gs es) (Tok.elemStart "environment" ats :: ts) =
      compsLoop term (.inItem false gs es "" [] [] [] [] "") ts := rfl

theorem compsStepSkipScan (term : Option XmlErr) (gs : List PackageGroup)
    (es : List Environment) (t : Tok) (ts : List Tok)
    (ht : ∀ n ats, t = Tok.elemStart n ats → n ≠ "group" ∧ n ≠ "environment") :
    compsLoop term (.scan gs es) (t :: ts) = compsLoop term (.scan gs es) ts := by
  cases t with
  | elemStart n ats =>
      obtain ⟨h1, h2⟩ := ht n ats rfl
      simp [compsLoop, h1, h2]
  | elemClose n => rfl
  | chardata s => rfl
  | procInst => rfl
  | comment => rfl
  | directive => rfl

theorem compsStepId (term : Option XmlErr) (g : Bool) (gs : List PackageGroup)
    (es : List Environment) (id : String) (names descs reqs : List String) (txt s n : String)
    (ts : List Tok) :
    compsLoop term (.inItem g gs es id names descs reqs [] txt)
        (Tok.elemStart "id" [] :: Tok.chardata s :: Tok.elemClose n :: ts) =
      compsLoop term (.inItem g gs es s names descs reqs [] s) ts := rfl

theorem compsStepName (term : Option XmlErr) (g : Bool) (gs : List PackageGroup)
    (es : List Environment) (id : String) (names descs reqs : List String) (txt s n : String)
    (ts : List Tok) :
    compsLoop term (.inItem g gs es id names descs reqs [] txt)
        (Tok.elemStart "name" [] :: Tok.chardata s :: Tok.elemClose n :: ts) =
      compsLoop term (.inItem g gs es id (names ++ [s]) descs reqs [] s) ts := rfl

theorem compsStepDesc (term : Option XmlErr) (g : Bool) (gs : List PackageGroup)
    (es : List Environment) (id : String) (names descs reqs : List String) (txt s n : String)
    (ts : List Tok) :
    compsLoop term (.inItem g gs es id names descs reqs [] txt)
        (Tok.elemStart "description" [] :: Tok.chardata s :: Tok.elemClose n :: ts) =
      compsLoop term (.inItem g gs es id names (descs ++ [s]) reqs [] s) ts := rfl

theorem compsStepPlistOpen (term : Option XmlErr) (g : Bool) (gs : List PackageGroup)
    (es : List Environment) (id : String) (names descs reqs : List String) (txt : String)
    (ats : List (String × String)) (ts : List Tok) :
    compsLoop term (.inItem g gs es id names descs reqs [] txt)
        (Tok.elemStart "packagelist" ats :: ts) =
      compsLoop term (.inItem g gs es id names descs reqs ["packagelist"] txt) ts := rfl

theorem compsStepReq (term : Option XmlErr) (g : Bool) (gs : List PackageGroup)
    (es : List Environment) (id : String) (names descs reqs : List String) (txt s n : String)
    (ts : List Tok) :
    compsLoop term (.inItem g gs es id names descs reqs ["packagelist"] txt)
        (Tok.elemStart "packagereq" [] :: Tok.chardata s :: Tok.elemClose n :: ts) =
      compsLoop term (.inItem g gs es id names descs (reqs ++ [s]) ["packagelist"] s) ts := rfl

theorem compsStepPlistClose (term : Option XmlErr) (g : Bool) (gs : List PackageGroup)
    (es : List Environment) (id : String) (names descs reqs : List String) (txt n : String)
    (ts : List Tok) :
    compsLoop term (.inItem g gs es id names descs reqs ["packagelist"] txt)
        (Tok.elemClose n :: ts) =
      compsLoop term (.inItem g gs es id names descs reqs [] txt) ts := rfl

theorem compsStepFinishGroup (term : Option XmlErr) (gs : List PackageGroup)
    (es : List Environment) (id : String) (names descs reqs : List String) (txt n : String)
    (ts : List Tok) :
    compsLoop term (.inItem true gs es id names descs reqs [] txt) (Tok.elemClose n :: ts) =
      compsLoop term
        (.scan (gs ++ [{ id := id, name := names, description := descs, packageList := reqs }])
          es) ts := rfl

theorem compsStepFinishEnv (term : Option XmlErr) (gs : List PackageGroup)
    (es : List Environment) (id : String) (names descs reqs : List String) (txt n : String)
    (ts : List Tok) :
    compsLoop term (.inItem false gs es id names descs reqs [] txt) (Tok.elemClose n :: ts) =
      compsLoop term (.scan gs (es ++ [{ id := id, name := names, description := descs }])) ts :=
  rfl

theorem compsNamesJoin (term : Option XmlErr) (g : Bool) (ss : List String) :
    ∀ (gs : List PackageGroup) (es : List Environment) (id : String)
      (names descs reqs : List String) (txt : String) (ts : List Tok),
    compsLoop term (.inItem g gs es id names descs reqs [] txt)
        (joinToks (textToks "name") ss ++ ts) =
      compsLoop term (.inItem g gs es id (names ++ ss) descs reqs [] (ss.getLastD txt)) ts := by
  induction ss with
  | nil => intro gs es id names descs reqs txt ts; simp [joinToks]
  | cons s ss ih =>
      intro gs es id names descs reqs txt ts
      show compsLoop term _ ((textToks "name" s ++ joinToks (textToks "name") ss) ++ ts) = _
      simp only [textToks, List.cons_append, List.append_assoc, List.nil_append]
      rw [compsStepName]
      rw [ih]
      rw [List.getLastD_cons]
      simp only [List.append_assoc, List.singleton_append]

theorem compsDescsJoin (term : Option XmlErr) (g : Bool) (ss : List String) :
    ∀ (gs : List PackageGroup) (es : List Environment) (id : String)
      (names descs reqs : List String) (txt : String) (ts : List Tok),
    compsLoop term (.inItem g gs es id names descs reqs [] txt)
        (joinToks (textToks "description") ss ++ ts) =
      compsLoop term (.inItem g gs es id names (descs ++ ss) reqs [] (ss.getLastD txt)) ts := by
  induction ss with
  | nil => intro gs es id names descs reqs txt ts; simp [joinToks]
  | cons s ss ih =>
      intro gs es id names descs reqs txt ts
      show compsLoop term _ ((textToks "description" s ++ joinToks (textToks "description") ss) ++ ts) = _
      simp only [textToks, List.cons_append, List.append_assoc, List.nil_append]
      rw [compsStepDesc]
      rw [ih]
      rw [List.getLastD_cons]
      simp only [List.append_assoc, List.singleton_append]

theorem compsReqsJoin (term : Option XmlErr) (g : Bool) (ss : List String) :
    ∀ (gs : List PackageGroup) (es : List Environment) (id : String)
      (names descs reqs : List String) (txt : String) (ts : List Tok),
    compsLoop term (.inItem g gs es id names descs reqs ["packagelist"] txt)
        (joinToks (textToks "packagereq") ss ++ ts) =
      compsLoop term
        (.inItem g gs es id names descs (reqs ++ ss) ["packagelist"] (ss.getLastD txt)) ts := by
  induction ss with
  | nil => intro gs es id names descs reqs txt ts; simp [joinToks]
  | cons s ss ih =>
      intro gs es id names descs reqs txt ts
      show compsLoop term _ ((textToks "packagereq" s ++ joinToks (textToks "packagereq") ss) ++ ts) = _
      simp only [textToks, List.cons_append, List.append_assoc, List.nil_append]
      rw [compsStepReq]
      rw [ih]
      rw [List.getLastD_cons]
      simp only [List.append_assoc, List.singleton_append]

/-- Processing the token stream of one serialized group. -/
theorem compsGroupStep (term : Option XmlErr) (g : GroupSrc) (gs : List PackageGroup)
    (es : List Environment) (ts : List Tok) :
    compsLoop term (.scan gs es) (groupToks g ++ ts) =
      compsLoop term (.scan (gs ++ [rawGroup g]) es) ts := by
  show compsLoop term (.scan gs es)
    ((Tok.elemStart "group" [] ::
      (textToks "id" g.gid ++ joinToks (textToks "name") g.names ++
        joinToks (textToks "description") g.descs ++
        Tok.elemStart "packagelist" [] :: joinToks (textToks "packagereq") g.reqs ++
        [Tok.elemClose "packagelist", Tok.elemClose "group"])) ++ ts) = _
  simp only [textToks, List.cons_append, List.append_assoc, List.nil_append]
  rw [compsStepStartGroup]
  rw [compsStepId]
  rw [compsNamesJoin]
  rw [compsDescsJoin]
  rw [compsStepPlistOpen]
  rw [compsReqsJoin]
  rw [compsStepPlistClose]
  rw [compsStepFinishGroup]
  simp [rawGroup]

/-- Processing the token stream of one serialized environment. -/
theorem compsEnvStep (term : Option XmlErr) (e : EnvSrc) (gs : List PackageGroup)
    (es : List Environment) (ts : List Tok) :
    compsLoop term (.scan gs es) (envToks e ++ ts) =
      compsLoop term (.scan gs (es ++ [rawEnv e])) ts := by
  show compsLoop term (.scan gs es)
    ((Tok.elemStart "environment" [] ::
      (textToks "id" e.eid ++ joinToks (textToks "name") e.names ++
        joinToks (textToks "description") e.descs ++ [Tok.elemClose "environment"])) ++ ts) = _
  simp only [textToks, List.cons_append, List.append_assoc, List.nil_append]
  rw [compsStepStartEnv]
  rw [compsStepId]
  rw [compsNamesJoin]
  rw [compsDescsJoin]
  rw [compsStepFinishEnv]
  simp [rawEnv]

theorem compsGroupsJoin (term : Option XmlErr) (l : List GroupSrc) :
    ∀ (gs : List PackageGroup) (es : List Environment) (ts : List Tok),
    compsLoop term (.scan gs es) (joinToks groupToks l ++ ts) =
      compsLoop term (.scan (gs ++ l.map rawGroup) es) ts := by
  induction l with
  | nil => intro gs es ts; simp [joinToks]
  | cons g l ih =>
      intro gs es ts
      show compsLoop term _ ((groupToks g ++ joinToks groupToks l) ++ ts) = _
      rw [List.append_assoc, compsGroupStep, ih]
      simp

theorem compsEnvsJoin (term : Option XmlErr) (l : List EnvSrc) :
    ∀ (gs : List PackageGroup) (es : List Environment) (ts : List Tok),
    compsLoop term (.scan gs es) (joinToks envToks l ++ ts) =
      compsLoop term (.scan gs (es ++ l.map rawEnv)) ts := by
  induction l with
  | nil => intro gs es ts; simp [joinToks]
  | cons e l ih =>
      intro gs es ts
      show compsLoop term _ ((envToks e ++ joinToks envToks l) ++ ts) = _
      rw [List.append_assoc, compsEnvStep, ih]
      simp

/-- Lexing one serialized group element. -/
theorem lexGroup (g : GroupSrc) (hg : safeGroupSrc g = true) (stack : List String)
    (rest : List Char) :
    lex stack (.data []) (mkGroupChars g ++ rest) =
      prepToks (groupToks g) (lex stack (.data []) rest) := by
  simp only [safeGroupSrc, Bool.and_eq_true] at hg
  obtain ⟨⟨⟨hid, hnames⟩, hdescs⟩, hreqs⟩ := hg
  show lex stack (.data [])
    ((startTagChars "group" [] ++ textElemChars "id" g.gid ++
      joinChars (textElemChars "name") g.names ++
      joinChars (textElemChars "description") g.descs ++
      startTagChars "packagelist" [] ++
      joinChars (textElemChars "packagereq") g.reqs ++
      endTagChars "packagelist" ++ endTagChars "group") ++ rest) = _
  simp only [List.append_assoc]
  rw [lexStartTag "group" (by decide) [] rfl]
  rw [lexTextElem "id" g.gid (by decide) hid]
  rw [lexJoin (textElemChars "name") (textToks "name") ("group" :: stack) g.names
    (fun s hs rest2 => lexTextElem "name" s (by decide)
      (List.all_eq_true.1 hnames s hs) ("group" :: stack) rest2)]
  rw [lexJoin (textElemChars "description") (textToks "description") ("group" :: stack) g.descs
    (fun s hs rest2 => lexTextElem "description" s (by decide)
      (List.all_eq_true.1 hdescs s hs) ("group" :: stack) rest2)]
  rw [lexStartTag "packagelist" (by decide) [] rfl]
  rw [lexJoin (textElemChars "packagereq") (textToks "packagereq")
    ("packagelist" :: "group" :: stack) g.reqs
    (fun s hs rest2 => lexTextElem "packagereq" s (by decide)
      (List.all_eq_true.1 hreqs s hs) ("packagelist" :: "group" :: stack) rest2)]
  rw [lexEndTag "packagelist" (by decide)]
  rw [lexEndTag "group" (by decide)]
  simp only [prepToksApp]
  show prepToks _ _ = _
  rw [show (groupToks g : List Tok) =
    Tok.elemStart "group" [] ::
      (textToks "id" g.gid ++ (joinToks (textToks "name") g.names ++
        (joinToks (textToks "description") g.descs ++
          (Tok.elemStart "packagelist" [] :: (joinToks (textToks "packagereq") g.reqs ++
            ([Tok.elemClose "packagelist"] ++ [Tok.elemClose "group"])))))) from by
    simp [groupToks, textToks]]
  simp [prepToks, textToks]

/-- Lexing one serialized environment element. -/
theorem lexEnv (e : EnvSrc) (he : safeEnvSrc e = true) (stack : List String)
    (rest : List Char) :
    lex stack (.data []) (mkEnvChars e ++ rest) =
      prepToks (envToks e) (lex stack (.data []) rest) := by
  simp only [safeEnvSrc, Bool.and_eq_true] at he
  obtain ⟨⟨hid, hnames⟩, hdescs⟩ := he
  show lex stack (.data [])
    ((startTagChars "environment" [] ++ textElemChars "id" e.eid ++
      joinChars (textElemChars "name") e.names ++
      joinChars (textElemChars "description") e.descs ++
      endTagChars "environment") ++ rest) = _
  simp only [List.append_assoc]
  rw [lexStartTag "environment" (by decide) [] rfl]
  rw [lexTextElem "id" e.eid (by decide) hid]
  rw [lexJoin (textElemChars "name") (textToks "name") ("environment" :: stack) e.names
    (fun s hs rest2 => lexTextElem "name" s (by decide)
      (List.all_eq_true.1 hnames s hs) ("environment" :: stack) rest2)]
  rw [lexJoin (textElemChars "description") (textToks "description") ("environment" :: stack) e.descs
    (fun s hs rest2 => lexTextElem "description" s (by decide)
      (List.all_eq_true.1 hdescs s hs) ("environment" :: stack) rest2)]
  rw [lexEndTag "environment" (by decide)]
  simp only [prepToksApp]
  show prepToks _ _ = _
  rw [show (envToks e : List Tok) =
    Tok.elemStart "environment" [] ::
      (textToks "id" e.eid ++ (joinToks (textToks "name") e.names ++
        (joinToks (textToks "description") e.descs ++ [Tok.elemClose "environment"]))) from by
    simp [envToks, textToks]]
  simp [prepToks, textToks]

/-- Lexing a whole serialized comps document. -/
theorem lexComps (gs : List GroupSrc) (es : List EnvSrc)
    (hgs : ∀ g ∈ gs, safeGroupSrc g = true) (hes : ∀ e ∈ es, safeEnvSrc e = true) :
    lex [] (.data []) (mkCompsChars gs es) =
      (Tok.elemStart "comps" [] :: (joinToks groupToks gs ++ joinToks envToks es ++
        [Tok.elemClose "comps"]), none) := by
  have h : ∀ rest : List Char,
      lex [] (.data []) (mkCompsChars gs es ++ rest) =
        prepToks (Tok.elemStart "comps" [] :: (joinToks groupToks gs ++
          joinToks envToks es ++ [Tok.elemClose "comps"]))
          (lex [] (.data []) rest) := by
    intro rest
    show lex [] (.data [])
      ((startTagChars "comps" [] ++ joinChars mkGroupChars gs ++ joinChars mkEnvChars es ++
        endTagChars "comps") ++ rest) = _
    simp only [List.append_assoc]
    rw [lexStartTag "comps" (by decide) [] rfl]
    rw [lexJoin mkGroupChars groupToks ["comps"] gs
      (fun g hg rest2 => lexGroup g (hgs g hg) ["comps"] rest2)]
    rw [lexJoin mkEnvChars envToks ["comps"] es
      (fun e he rest2 => lexEnv e (hes e he) ["comps"] rest2)]
    rw [lexEndTag "comps" (by decide)]
    simp only [prepToksApp]
    simp [prepToks]
  have h2 := h []
  rw [List.append_nil] at h2
  rw [h2]
  simp [prepToks, lex]

/-- Localisation stripping succeeds on raw groups with nonempty name and
description lists and keeps only the first entry of each. -/
theorem stripGroups (gs : List GroupSrc)
    (hne : ∀ g ∈ gs, g.names ≠ [] ∧ g.descs ≠ []) :
    processPackageGroupsToRemoveLocalized (gs.map rawGroup) = some (gs.map outGroup) := by
  induction gs with
  | nil => rfl
  | cons g gs ih =>
      obtain ⟨hn, hd⟩ := hne g (by simp)
      simp only [List.map_cons, processPackageGroupsToRemoveLocalized, List.mapM_cons]
      have hcond : ¬ ((rawGroup g).name.isEmpty = true ∨ (rawGroup g).description.isEmpty = true) := by
        simp [rawGroup, hn, hd]
      rw [if_neg hcond]
      have ih2 := ih (fun x hx => hne x (by simp [hx]))
      simp only [processPackageGroupsToRemoveLocalized] at ih2
      rw [ih2]
      simp [rawGroup, outGroup]

/-- Localisation stripping on raw environments, same statement. -/
theorem stripEnvs (es : List EnvSrc)
    (hne : ∀ e ∈ es, e.names ≠ [] ∧ e.descs ≠ []) :
    processEnvironmentsToRemoveLocalized (es.map rawEnv) = some (es.map outEnv) := by
  induction es with
  | nil => rfl
  | cons e es ih =>
      obtain ⟨hn, hd⟩ := hne e (by simp)
      simp only [List.map_cons, processEnvironmentsToRemoveLocalized, List.mapM_cons]
      have hcond : ¬ ((rawEnv e).name.isEmpty = true ∨ (rawEnv e).description.isEmpty = true) := by
        simp [rawEnv, hn, hd]
      rw [if_neg hcond]
      have ih2 := ih (fun x hx => hne x (by simp [hx]))
      simp only [processEnvironmentsToRemoveLocalized] at ih2
      rw [ih2]
      simp [rawEnv, outEnv]

/-- C7: decoding a canonical comps document keeps, for every group and
environment, only the first (default-locale) name and description entry;
translated entries are dropped by the localisation stripping. -/
theorem c7_first_locale_only (gs : List GroupSrc) (es : List EnvSrc)
    (hgs : ∀ g ∈ gs, safeGroupSrc g = true) (hes : ∀ e ∈ es, safeEnvSrc e = true)
    (hgne : ∀ g ∈ gs, g.names ≠ [] ∧ g.descs ≠ [])
    (hene : ∀ e ∈ es, e.names ≠ [] ∧ e.descs ≠ []) :
    ParseCompsXML (mkCompsChars gs es) =
      CompsResult.ok (gs.map outGroup) (es.map outEnv) none ∧
    (∀ g ∈ gs, (outGroup g).name = g.names.take 1 ∧
      (outGroup g).description = g.descs.take 1) ∧
    (∀ e ∈ es, (outEnv e).name = e.names.take 1 ∧
      (outEnv e).description = e.descs.take 1) := by
  refine ⟨?_, fun g _ => ⟨rfl, rfl⟩, fun e _ => ⟨rfl, rfl⟩⟩
  unfold ParseCompsXML
  rw [lexComps gs es hgs hes]
  show (match compsLoop none (.scan [] [])
      (Tok.elemStart "comps" [] :: (joinToks groupToks gs ++ joinToks envToks es ++
        [Tok.elemClose "comps"])) with
    | (gs2, es2, some e) => CompsResult.ok gs2 es2 (some e)
    | (gs2, es2, none) =>
        match processPackageGroupsToRemoveLocalized gs2,
              processEnvironmentsToRemoveLocalized es2 with
        | some gs3, some es3 => CompsResult.ok gs3 es3 none
        | _, _ => CompsResult.panicked) = _
  rw [compsStepSkipScan none [] [] _ _ (by intro n ats h; cases h; exact ⟨by decide, by decide⟩)]
  rw [show (joinToks groupToks gs ++ joinToks envToks es ++ [Tok.elemClose "comps"] : List Tok) =
    joinToks groupToks gs ++ (joinToks envToks es ++ [Tok.elemClose "comps"]) from by simp]
  rw [compsGroupsJoin]
  rw [compsEnvsJoin]
  rw [compsStepSkipScan none _ _ _ _ (by intro n ats h; cases h)]
  show (match (([] ++ gs.map rawGroup : List PackageGroup), ([] ++ es.map rawEnv : List Environment),
      (none : Option GoErr)) with
    | (gs2, es2, some e) => CompsResult.ok gs2 es2 (some e)
    | (gs2, es2, none) =>
        match processPackageGroupsToRemoveLocalized gs2,
              processEnvironmentsToRemoveLocalized es2 with
        | some gs3, some es3 => CompsResult.ok gs3 es3 none
        | _, _ => CompsResult.panicked) = _
  simp only [List.nil_append]
  rw [stripGroups gs hgne, stripEnvs es hene]

set_option maxRecDepth 8000 in
theorem c7_witness :
    ParseCompsXML (mkCompsChars [wGroup] [wEnv]) =
      CompsResult.ok ([wGroup].map outGroup) ([wEnv].map outEnv) none ∧
    (outGroup wGroup).name = ["Core"] ∧ (outEnv wEnv).description = ["Tiny"] :=
  ⟨(c7_first_locale_only [wGroup] [wEnv] (by decide) (by decide) (by decide) (by decide)).1,
    by decide, by decide⟩

end Yummy
